import Mathlib

/-!
# Verification of the Offline-SCORM CMI store and sync queue

This file gives a shallow embedding of the core of the repository
(`src/services/offline-sync.js`, the `ScormApiService` and the prepared
SQL statements of `src/models/database.js`) and proves or refutes the
frozen claims about it.

The JavaScript dynamic values that flow through `storeCmiData` /
`setNestedValue` are modelled by the inductive types `Scalar`, `JsTree`
(commit payloads) and `JsVal` (the objects built by `setNestedValue`).
JavaScript's string/number coercions (`String(v)`, `isNaN(key)`,
`parseInt(key)`, truthiness, `||`) are modelled explicitly below.
-/

/-- A JavaScript primitive value appearing as a leaf of a commit payload.
Numbers are modelled as integers (all concrete payloads in the spec use
integer scores); `String(n)` on an integer is its decimal representation. -/
inductive Scalar where
  | sstr (s : String)
  | snum (n : Int)
  | sbool (b : Bool)
  | snull
deriving DecidableEq

/-- A nested JSON-like value: the shape of commit payloads (`commitData`)
and of the `cmi` object handed to `storeCmiData`. -/
inductive JsTree where
  | leaf (v : Scalar)
  | node (fields : List (String × JsTree))
  | arrNode (items : List JsTree)

/-- The dynamic JavaScript values built by `setNestedValue` while
reconstructing a CMI object from flat records: strings (every stored
record value is a string), plain objects (insertion-ordered field list)
and arrays.  JavaScript arrays can also carry non-index ("expando")
properties (`current[NaN] = {}` or `current["foo"] = v` store such a
property); they are modelled by the `props` component. -/
inductive JsVal where
  | vstr (s : String)
  | vobj (fields : List (String × JsVal))
  | varr (items : List (Option JsVal)) (props : List (String × JsVal))

/-- JavaScript truthiness of a model value: of the values that occur
during reconstruction, only the empty string is falsy (objects and
arrays are always truthy). -/
def jsTruthy : JsVal → Bool
  | JsVal.vstr s => !s.isEmpty
  | JsVal.vobj _ => true
  | JsVal.varr _ _ => true

/-- Property lookup in an insertion-ordered field list (`obj[key]`). -/
def lookupField (fields : List (String × JsVal)) (k : String) : Option JsVal :=
  match fields.find? (fun p => p.1 == k) with
  | some p => some p.2
  | none => none

/-- Property assignment `obj[key] = v`: overwrites in place if the key
exists, otherwise appends (JavaScript insertion order). -/
def setField : List (String × JsVal) → String → JsVal → List (String × JsVal)
  | [], k, v => [(k, v)]
  | (k', v') :: rest, k, v =>
      if k' == k then (k, v) :: rest else (k', v') :: setField rest k v

/-- Array element read `arr[i]`: `none` models `undefined` (index out of
range or a hole). -/
def getItem (items : List (Option JsVal)) (i : Nat) : Option JsVal :=
  match items.get? i with
  | some x => x
  | none => none

/-- Array element write `arr[i] = v`, extending the array with holes when
`i` is beyond the current length. -/
def setItem : List (Option JsVal) → Nat → JsVal → List (Option JsVal)
  | [], 0, v => [some v]
  | [], Nat.succ n, v => none :: setItem [] n v
  | _ :: rest, 0, v => some v :: rest
  | x :: rest, Nat.succ n, v => x :: setItem rest n v

/-! ## JavaScript numeric-string semantics

`setNestedValue` classifies path segments with `!isNaN(key)` and converts
them with `parseInt(key)`.  We model `Number(s)`'s domain (for the NaN
test) and `parseInt` on the character list of the string. -/

/-- Whitespace as trimmed by `Number(s)` / `parseInt(s)`. -/
def jsWs (c : Char) : Bool :=
  c == ' ' || c == '\t' || c == '\n' || c == '\r'

/-- Strip leading and trailing whitespace of a character list. -/
def trimChars (l : List Char) : List Char :=
  ((l.dropWhile jsWs).reverse.dropWhile jsWs).reverse

/-- Drop one leading sign character. -/
def stripSign : List Char → List Char
  | '+' :: r => r
  | '-' :: r => r
  | l => l

def isHexDigit (c : Char) : Bool :=
  c.isDigit || ('a' ≤ c && c ≤ 'f') || ('A' ≤ c && c ≤ 'F')

/-- Exponent part of a decimal literal: optional sign then digits. -/
def expPart (l : List Char) : Bool :=
  let l' := stripSign l
  !l'.isEmpty && l'.all Char.isDigit

/-- An unsigned decimal `Number` literal: digits with optional fraction,
optional exponent; at least one digit overall. -/
def jsDecNumber (l : List Char) : Bool :=
  let d1 := l.takeWhile Char.isDigit
  let r1 := l.dropWhile Char.isDigit
  let d2 := match r1 with
    | '.' :: r => r.takeWhile Char.isDigit
    | _ => []
  let r2 := match r1 with
    | '.' :: r => r.dropWhile Char.isDigit
    | _ => r1
  if d1.isEmpty && d2.isEmpty then false
  else match r2 with
    | [] => true
    | 'e' :: r => expPart r
    | 'E' :: r => expPart r
    | _ => false

/-- Model of the JavaScript test `!isNaN(s)` for a string `s`:
`Number(s)` is not `NaN`.  The empty / whitespace-only string converts
to `0`; otherwise a signed decimal literal, `Infinity`, or a
hex/octal/binary literal. -/
def jsIsNumeric (s : String) : Bool :=
  let t := trimChars s.data
  match t with
  | [] => true
  | '0' :: 'x' :: r => !r.isEmpty && r.all isHexDigit
  | '0' :: 'X' :: r => !r.isEmpty && r.all isHexDigit
  | '0' :: 'o' :: r => !r.isEmpty && r.all (fun c => '0' ≤ c && c ≤ '7')
  | '0' :: 'O' :: r => !r.isEmpty && r.all (fun c => '0' ≤ c && c ≤ '7')
  | '0' :: 'b' :: r => !r.isEmpty && r.all (fun c => c == '0' || c == '1')
  | '0' :: 'B' :: r => !r.isEmpty && r.all (fun c => c == '0' || c == '1')
  | _ =>
      let t' := stripSign t
      jsDecNumber t' || t' == "Infinity".data

/-- Numeric value of a decimal digit character. -/
def digitVal (c : Char) : Nat := c.toNat - '0'.toNat

/-- Big-endian valuation of a decimal digit-character list. -/
def natOfDigits (l : List Char) : Nat :=
  l.foldl (fun a c => a * 10 + digitVal c) 0

/-- Valuation of a hex digit character. -/
def hexDigitVal (c : Char) : Nat :=
  if c.isDigit then c.toNat - '0'.toNat
  else if 'a' ≤ c && c ≤ 'f' then c.toNat - 'a'.toNat + 10
  else c.toNat - 'A'.toNat + 10

/-- Model of JavaScript `parseInt(s)` (radix auto-detection of `0x`):
trims, takes an optional sign, then the longest prefix of digits;
`none` models `NaN`. -/
def parseIntJs (s : String) : Option Int :=
  let t := trimChars s.data
  let sign : Int := match t with
    | '-' :: _ => -1
    | _ => 1
  let t' := stripSign t
  match t' with
  | '0' :: 'x' :: r =>
      let ds := r.takeWhile isHexDigit
      if ds.isEmpty then none
      else some (sign * (ds.foldl (fun a c => a * 16 + hexDigitVal c) 0 : Nat))
  | '0' :: 'X' :: r =>
      let ds := r.takeWhile isHexDigit
      if ds.isEmpty then none
      else some (sign * (ds.foldl (fun a c => a * 16 + hexDigitVal c) 0 : Nat))
  | _ =>
      let ds := t'.takeWhile Char.isDigit
      if ds.isEmpty then none else some (sign * (natOfDigits ds : Int))

/-- Canonical array-index test for a string property key: JavaScript
treats a string key of an array as an element index exactly when it is
the canonical decimal form of a non-negative integer (digits only, no
leading zero except `"0"` itself).  Used for the final
`current[lastKey] = value` write of `setNestedValue`. -/
def canonicalIndex? (s : String) : Option Nat :=
  match s.data with
  | [] => none
  | c :: rest =>
      if (c :: rest).all Char.isDigit && (c ≠ '0' || rest = []) then
        some (natOfDigits (c :: rest))
      else none

/-! ## Path splitting (`path.split('.')`) -/

/-- `String.split` on `'.'` of a character list; `[]` input yields `[[]]`
like JavaScript's `"".split('.') == [""]`. -/
def splitOnDot : List Char → List (List Char)
  | [] => [[]]
  | c :: r =>
      if c = '.' then [] :: splitOnDot r
      else
        match splitOnDot r with
        | s :: ss => (c :: s) :: ss
        | [] => [[c]]

/-- `path.split('.')` as a list of segment strings. -/
def splitPath (p : String) : List String :=
  (splitOnDot p.data).map String.mk

/-- Decimal representation: little-endian digit list of a positive
number (empty for 0). -/
def natDigitsRev : Nat → List Nat
  | 0 => []
  | n + 1 => ((n + 1) % 10) :: natDigitsRev ((n + 1) / 10)
decreasing_by exact Nat.div_lt_self (Nat.succ_pos n) (by decide)

/-- The character of a decimal digit. -/
def natDigitChar : Nat → Char
  | 0 => '0' | 1 => '1' | 2 => '2' | 3 => '3' | 4 => '4'
  | 5 => '5' | 6 => '6' | 7 => '7' | 8 => '8' | _ => '9'

/-- Model of JavaScript `String(n)` for a non-negative integer `n`
(decimal, no sign, no leading zeros): used for array indices in
`storeCmiData` (template `` `${element}.${index}` ``). -/
def natRepr (n : Nat) : String :=
  if n = 0 then "0" else String.mk ((natDigitsRev n).reverse.map natDigitChar)

/-- `String(v)` for a payload scalar, as performed by `storeCmiData`
before inserting a record (`value-type-erasing` coercion). -/
def Scalar.jsString : Scalar → String
  | Scalar.sstr s => s
  | Scalar.snum n => if n < 0 then "-" ++ natRepr n.natAbs else natRepr n.natAbs
  | Scalar.sbool true => "true"
  | Scalar.sbool false => "false"
  | Scalar.snull => "null"

/-! ## `setNestedValue` (src/services offline-sync.js scorm-api part, lines 504-533)

The source walks `keys = path.split('.')` keeping a `current` pointer:

* a segment with `!isNaN(key)` is an array step: `parseInt(key)` gives the
  index; when `current` is not an array the function silently returns;
  a missing/falsy slot is overwritten with `{}`;
* otherwise an object step: a missing/falsy slot is created as `[]` when
  the next segment is numeric, else `{}`;
* finally `current[lastKey] = value`.

Navigating into a primitive string makes `current` become `undefined`;
the subsequent access then either silently returns (numeric segment,
`Array.isArray(undefined)` is false) or throws a `TypeError`.  Exceptions
are modelled by `Except.error`; since a thrown `TypeError` aborts the
whole enclosing `getCmiData` call, its partially mutated (and discarded)
object is not modelled. -/

/-- How a `current[index]` access with `index = parseInt(key)` addresses
an array: a non-negative integer is an element index, a negative integer
or `NaN` addresses a string-keyed property of the array object. -/
inductive ArrKey where
  | idx (i : Nat)
  | aprop (p : String)

/-- `String(n)` for the property name of a negative `parseInt` result. -/
def intPropName (n : Int) : String :=
  if n < 0 then "-" ++ natRepr n.natAbs else natRepr n.natAbs

def arrKeyOf (k : String) : ArrKey :=
  match parseIntJs k with
  | some n => if 0 ≤ n then ArrKey.idx n.toNat else ArrKey.aprop (intPropName n)
  | none => ArrKey.aprop "NaN"

/-- `!isNaN(nextKey) ? [] : {}` — the container created for a missing
intermediate segment. -/
def newContainer (next : String) : JsVal :=
  if jsIsNumeric next then JsVal.varr [] [] else JsVal.vobj []

/-- `if (!current[x]) current[x] = {}` for an array step: keep a truthy
existing slot, otherwise a fresh `{}`. -/
def freshChild (cur : Option JsVal) : JsVal :=
  match cur with
  | some c => if jsTruthy c then c else JsVal.vobj []
  | none => JsVal.vobj []

/-- Existing-or-created child for an object step. -/
def objChild (cur : Option JsVal) (next : String) : JsVal :=
  match cur with
  | some c => if jsTruthy c then c else newContainer next
  | none => newContainer next

/-- The final `current[lastKey] = value` write.  On an array, a string
key that is the canonical decimal form of a non-negative integer is an
element index; any other key is a property of the array object.
Assignment to a primitive string is a silent no-op (non-strict mode). -/
def assignLast : JsVal → String → String → JsVal
  | JsVal.vobj fields, k, v => JsVal.vobj (setField fields k (JsVal.vstr v))
  | JsVal.varr items props, k, v =>
      match canonicalIndex? k with
      | some i => JsVal.varr (setItem items i (JsVal.vstr v)) props
      | none => JsVal.varr items (setField props k (JsVal.vstr v))
  | JsVal.vstr s, _, _ => JsVal.vstr s

/-- The loop of `setNestedValue` over the split path. -/
def setNVgo : JsVal → List String → String → Except String JsVal
  | cur, [], _ => Except.ok cur
  | cur, [k], v => Except.ok (assignLast cur k v)
  | cur, k :: next :: rest, v =>
    if jsIsNumeric k then
      match cur with
      | JsVal.varr items props =>
        match arrKeyOf k with
        | ArrKey.idx i =>
            (setNVgo (freshChild (getItem items i)) (next :: rest) v).map
              (fun c => JsVal.varr (setItem items i c) props)
        | ArrKey.aprop p =>
            (setNVgo (freshChild (lookupField props p)) (next :: rest) v).map
              (fun c => JsVal.varr items (setField props p c))
      | other => Except.ok other
    else
      match cur with
      | JsVal.vobj fields =>
          (setNVgo (objChild (lookupField fields k) next) (next :: rest) v).map
            (fun c => JsVal.vobj (setField fields k c))
      | JsVal.varr items props =>
          (setNVgo (objChild (lookupField props k) next) (next :: rest) v).map
            (fun c => JsVal.varr items (setField props k c))
      | JsVal.vstr s =>
          match rest with
          | [] => Except.error "TypeError: cannot set properties of undefined"
          | r :: _ =>
              if jsIsNumeric r then Except.ok (JsVal.vstr s)
              else Except.error "TypeError: cannot read properties of undefined"

/-- `setNestedValue(obj, path, value)` of the source. -/
def setNestedValue (obj : JsVal) (path : String) (value : String) : Except String JsVal :=
  setNVgo obj (splitPath path) value

/-! ## `storeCmiData` (flattening, lines 384-405)

`storeCmiData(sessionId, cmi, prefix = 'cmi')` iterates
`Object.entries(cmi)`:

* a non-null non-array object recurses with `prefix.key`;
* an array stores each item: objects (including nested arrays and,
  fatally, `null` — `typeof null === 'object'`) recurse with
  `element.index`, scalars are stored as `String(item)`;
* any other value is stored as `String(value)`.

`Object.entries` of an array yields index-keyed entries; of `null` it
throws a `TypeError`; of a string it yields one entry per character; of
other primitives it yields nothing.  The emitted list of
`(element, value)` records is the sequence of `insertCmiData` rows, in
insertion order. -/

/-- `` prefix ? `${prefix}.${key}` : key ``. -/
def joinKey (pre k : String) : String :=
  if pre = "" then k else pre ++ "." ++ k

/-- `Object.entries` of a string: one single-character entry per index. -/
def strEntries (s : String) (pre : String) : List (String × String) :=
  s.data.enum.map (fun p => (joinKey pre (natRepr p.1), String.mk [p.2]))

mutual

/-- `storeCmiData(sessionId, cmi, prefix)` of the source, returning the
emitted `(element, value)` records (or the thrown `TypeError`). -/
def storeCmiData (cmi : JsTree) (pre : String) : Except String (List (String × String)) :=
  match cmi with
  | JsTree.node fs => storeFields fs pre
  | JsTree.arrNode its => storeEntries its 0 pre
  | JsTree.leaf Scalar.snull =>
      Except.error "TypeError: Cannot convert undefined or null to object"
  | JsTree.leaf (Scalar.sstr s) => Except.ok (strEntries s pre)
  | JsTree.leaf _ => Except.ok []
termination_by structural cmi

/-- The `for (const [key, value] of Object.entries(cmi))` body over the
fields of a plain object. -/
def storeFields (l : List (String × JsTree)) (pre : String) :
    Except String (List (String × String)) :=
  match l with
  | [] => Except.ok []
  | (k, val) :: rest => do
      let elem := joinKey pre k
      let part ←
        match val with
        | JsTree.node fs => storeCmiData (JsTree.node fs) elem
        | JsTree.arrNode its => storeArr its 0 elem
        | JsTree.leaf sc => Except.ok [(elem, sc.jsString)]
      let more ← storeFields rest pre
      Except.ok (part ++ more)
termination_by structural l

/-- The same entry loop for an array value of `cmi` itself
(`Object.entries` of an array: keys are the decimal indices). -/
def storeEntries (l : List JsTree) (i : Nat) (pre : String) :
    Except String (List (String × String)) :=
  match l with
  | [] => Except.ok []
  | t :: rest => do
      let elem := joinKey pre (natRepr i)
      let part ←
        match t with
        | JsTree.node fs => storeCmiData (JsTree.node fs) elem
        | JsTree.arrNode its => storeArr its 0 elem
        | JsTree.leaf sc => Except.ok [(elem, sc.jsString)]
      let more ← storeEntries rest (i + 1) pre
      Except.ok (part ++ more)
termination_by structural l

/-- `value.forEach((item, index) => ...)` of the array branch:
`typeof item === 'object'` (objects, arrays and `null`) recurses into
`storeCmiData`, scalars are emitted as `String(item)`. -/
def storeArr (l : List JsTree) (i : Nat) (elem : String) :
    Except String (List (String × String)) :=
  match l with
  | [] => Except.ok []
  | t :: rest => do
      let el := elem ++ "." ++ natRepr i
      let part ←
        match t with
        | JsTree.node fs => storeCmiData (JsTree.node fs) el
        | JsTree.arrNode its => storeCmiData (JsTree.arrNode its) el
        | JsTree.leaf Scalar.snull => storeCmiData (JsTree.leaf Scalar.snull) el
        | JsTree.leaf sc => Except.ok [(el, sc.jsString)]
      let more ← storeArr rest (i + 1) elem
      Except.ok (part ++ more)
termination_by structural l

end

/-- The reconstruction loop of `getCmiData(sessionId)` (lines 273-289):
starting from `const cmi = {}`, fold `setNestedValue` over the records
in the order returned by `getAllCmiData` (timestamp ascending, which is
insertion order for a monotone clock). -/
def buildCmi (records : List (String × String)) : Except String JsVal :=
  records.foldlM (fun o r => setNestedValue o r.1 r.2) (JsVal.vobj [])

/-! ## Payload access (`commitData.cmi?.score?.raw`, truthiness, `||`) -/

/-- JavaScript truthiness of a payload value. -/
def jsTruthyTree : JsTree → Bool
  | JsTree.leaf (Scalar.sstr s) => !s.isEmpty
  | JsTree.leaf (Scalar.snum n) => n ≠ 0
  | JsTree.leaf (Scalar.sbool b) => b
  | JsTree.leaf Scalar.snull => false
  | JsTree.node _ => true
  | JsTree.arrNode _ => true

/-- Property access `t.k` / `t?.k`: a field of a plain object, and
`undefined` (= `none`) on scalars, `null` and arrays. -/
def JsTree.get? : JsTree → String → Option JsTree
  | JsTree.node fs, k =>
      match fs.find? (fun p => p.1 == k) with
      | some p => some p.2
      | none => none
  | _, _ => none

/-- Keep a value only if truthy (the test part of `x ? ...` / `x || ...`). -/
def truthyVal (o : Option JsTree) : Option JsTree :=
  match o with
  | some t => if jsTruthyTree t then some t else none
  | none => none

/-- `a || b || ... || null`: the first truthy operand, else `null`
(`none`). -/
def firstTruthy : List (Option JsTree) → Option JsTree
  | [] => none
  | x :: rest =>
      match truthyVal x with
      | some v => some v
      | none => firstTruthy rest

/-- Strict equality `t === 'lit'` with a string literal. -/
def isStrLeaf (t : JsTree) (s : String) : Bool :=
  match t with
  | JsTree.leaf (Scalar.sstr s') => s' == s
  | _ => false

/-- `const cmi = commitData.cmi || {}`. -/
def cmiOf (commitData : JsTree) : JsTree :=
  match truthyVal (commitData.get? "cmi") with
  | some t => t
  | none => JsTree.node []

/-- `determineCompletion(commitData)` (lines 435-450): a truthy SCORM 2004
`cmi.completion_status` decides alone; otherwise a truthy SCORM 1.2
`cmi.core.lesson_status` decides; otherwise `false`. -/
def determineCompletion (commitData : JsTree) : Bool :=
  let cmi := cmiOf commitData
  match truthyVal (cmi.get? "completion_status") with
  | some cs => isStrLeaf cs "completed"
  | none =>
      match truthyVal ((cmi.get? "core").bind (fun c => c.get? "lesson_status")) with
      | some ls => isStrLeaf ls "completed" || isStrLeaf ls "passed"
      | none => false

/-! ## Database model (src/models/database.js)

Tables are modelled as append-only lists; `strftime('%s','now')`
timestamps come from a monotone clock `now` that advances on every
insert (wall-clock order of arrival; ties between equal SQLite second
stamps are resolved arbitrarily by the engine and are not relied on by
any claim).  `id INTEGER PRIMARY KEY AUTOINCREMENT` of the sync queue is
the counter `nextSyncId`. -/

structure CmiRecord where
  session_id : String
  element : String
  value : String
  timestamp : Nat
deriving DecidableEq

structure ScormSession where
  id : String
  package_id : String
  user_id : Option String
  last_accessed : Nat
  completed : Bool
  success_status : Option Scalar
  score_raw : Option Scalar
  session_time : Option Scalar
  total_time : Option Scalar
  suspend_data : Option Scalar
deriving DecidableEq

structure SyncItem where
  id : Nat
  session_id : String
  package_id : String
  action : String
  data : String
  created_at : Nat
  synced : Bool
  synced_at : Option Nat
  retry_count : Nat
deriving DecidableEq

structure Db where
  sessions : List ScormSession
  cmiData : List CmiRecord
  syncQueue : List SyncItem
  nextSyncId : Nat
  now : Nat
deriving DecidableEq

/-- `config.sync.batchSize` (src/config/config.js). -/
def configSyncBatchSize : Nat := 100

/-- `config.sync.maxRetries` (src/config/config.js). -/
def configSyncMaxRetries : Nat := 3

/-- `getSession(sessionId)`: `SELECT * FROM scorm_sessions WHERE id = ?`
(`id` is the primary key, so the first match is the row). -/
def getSession (db : Db) (sessionId : String) : Option ScormSession :=
  db.sessions.find? (fun s => s.id == sessionId)

/-- `setCmiData(sessionId, element, value)`: `INSERT INTO cmi_data ...`;
appends one immutable record stamped with the current clock. -/
def setCmiData (db : Db) (sessionId element value : String) : Db :=
  { db with
    cmiData := db.cmiData ++
      [{ session_id := sessionId, element := element, value := value,
         timestamp := db.now }],
    now := db.now + 1 }

/-- Insert the records emitted by `storeCmiData` in order. -/
def applyRecords (db : Db) (sessionId : String) :
    List (String × String) → Db
  | [] => db
  | r :: rest => applyRecords (setCmiData db sessionId r.1 r.2) sessionId rest

/-- `ORDER BY timestamp DESC LIMIT 1` of the `getCmiData` statement:
the maximum-timestamp row (the first such row when timestamps tie). -/
def latestRecord : List CmiRecord → Option CmiRecord
  | [] => none
  | r :: rest =>
      match latestRecord rest with
      | none => some r
      | some m => if m.timestamp > r.timestamp then some m else some r

/-- `getCmiData(sessionId, element)` (service lines 273-277 with the SQL
of database.js lines 167-171): the value of the highest-timestamp record
for that exact session and element, `null` if none. -/
def getCmiDataElement (db : Db) (sessionId element : String) : Option String :=
  (latestRecord (db.cmiData.filter
    (fun r => r.session_id == sessionId && r.element == element))).map
    (fun r => r.value)

/-- `getCmiData(sessionId)` without an element: fold `setNestedValue`
over all of the session's records in timestamp-ascending order (which is
their insertion order under the monotone clock). -/
def getCmiDataFull (db : Db) (sessionId : String) : Except String JsVal :=
  buildCmi ((db.cmiData.filter (fun r => r.session_id == sessionId)).map
    (fun r => (r.element, r.value)))

/-! ## `commitSession` / `terminateSession` (lines 306-379) -/

/-- A value bound into a prepared statement by better-sqlite3: strings,
numbers and `null`/`undefined` bind; booleans, plain objects and arrays
throw a `TypeError`. -/
def bindValue : Option JsTree → Except String (Option Scalar)
  | none => Except.ok none
  | some (JsTree.leaf (Scalar.sbool _)) => Except.error "TypeError: Invalid value"
  | some (JsTree.leaf Scalar.snull) => Except.ok none
  | some (JsTree.leaf sc) => Except.ok (some sc)
  | some (JsTree.node _) => Except.error "TypeError: Invalid value"
  | some (JsTree.arrNode _) => Except.error "TypeError: Invalid value"

/-- The result object of `commitSession` / `terminateSession`. -/
structure ApiResult where
  success : Bool
  sessionId : String
deriving DecidableEq

/-- `commitSession(sessionId, commitData)` (lines 306-359): look the
session up (`NotFound` throws), derive the summary fields with `||`
fallbacks, update the session row, then flatten `commitData.cmi || {}`
into `cmi_data` records.

The interactions branch (lines 347-349) inserts into a table none of the
verified claims reads, and its timestamp conversion (`new Date(...)`)
is not shallowly embeddable; it is modelled as a no-op, and theorems
about commits below do not depend on payloads with a truthy
`cmi.interactions`. -/
def commitSession (db : Db) (sessionId : String) (commitData : JsTree) :
    Except String (ApiResult × Db) := do
  match getSession db sessionId with
  | none => Except.error "Failed to commit session: Session not found"
  | some _ =>
      let completed := determineCompletion commitData
      let cmi := commitData.get? "cmi"
      let successStatus ← bindValue (firstTruthy
        [cmi.bind (fun c => c.get? "success_status"),
         (cmi.bind (fun c => c.get? "core")).bind (fun c => c.get? "lesson_status")])
      let scoreRaw ← bindValue (firstTruthy
        [(cmi.bind (fun c => c.get? "score")).bind (fun c => c.get? "raw"),
         ((cmi.bind (fun c => c.get? "core")).bind (fun c => c.get? "score")).bind
           (fun c => c.get? "raw")])
      let sessionTime ← bindValue (firstTruthy
        [cmi.bind (fun c => c.get? "session_time"),
         (cmi.bind (fun c => c.get? "core")).bind (fun c => c.get? "session_time")])
      let totalTime ← bindValue (firstTruthy
        [cmi.bind (fun c => c.get? "total_time"),
         (cmi.bind (fun c => c.get? "core")).bind (fun c => c.get? "total_time")])
      let suspendData ← bindValue (firstTruthy
        [cmi.bind (fun c => c.get? "suspend_data"),
         (cmi.bind (fun c => c.get? "core")).bind (fun c => c.get? "suspend_data")])
      let db1 := { db with
        sessions := db.sessions.map (fun s =>
          if s.id == sessionId then
            { s with
              last_accessed := db.now,
              completed := completed,
              success_status := successStatus,
              score_raw := scoreRaw,
              session_time := sessionTime,
              total_time := totalTime,
              suspend_data := suspendData }
          else s) }
      let cmiTop := match truthyVal cmi with
        | some t => t
        | none => JsTree.node []
      let recs ← storeCmiData cmiTop "cmi"
      let db2 := applyRecords db1 sessionId recs
      Except.ok ({ success := true, sessionId := sessionId }, db2)

/-- `Object.keys(finalData).length`: own enumerable keys of an object,
indices of an array, character count of a string, none for other
primitives; throws on `null`. -/
def keysLength : JsTree → Except String Nat
  | JsTree.node fs => Except.ok fs.length
  | JsTree.arrNode its => Except.ok its.length
  | JsTree.leaf (Scalar.sstr s) => Except.ok s.data.length
  | JsTree.leaf Scalar.snull =>
      Except.error "TypeError: Cannot convert undefined or null to object"
  | JsTree.leaf _ => Except.ok 0

/-- `terminateSession(sessionId, finalData = {})` (lines 364-379): a
non-empty `finalData` is committed first (errors propagate); the
function then reports success without checking that the session exists
and without recording any terminated state. -/
def terminateSession (db : Db) (sessionId : String) (finalData : JsTree) :
    Except String (ApiResult × Db) := do
  let n ← keysLength finalData
  if 0 < n then
    let r ← commitSession db sessionId finalData
    Except.ok ({ success := true, sessionId := sessionId }, r.2)
  else
    Except.ok ({ success := true, sessionId := sessionId }, db)

/-! ## Sync queue (`createSyncItem` .. `incrementSyncRetry`, SQL of
database.js lines 180-202) -/

/-- `createSyncItem(sessionId, packageId, action, data)`: appends one
pending entry (`synced` defaults to 0, `retry_count` to 0); `data` is
the JSON serialization of the action payload — no verified claim
inspects it, so the serialized string itself is taken as input. -/
def createSyncItem (db : Db) (sessionId packageId action data : String) : Db :=
  { db with
    syncQueue := db.syncQueue ++
      [{ id := db.nextSyncId, session_id := sessionId,
         package_id := packageId, action := action, data := data,
         created_at := db.now, synced := false, synced_at := none,
         retry_count := 0 }],
    nextSyncId := db.nextSyncId + 1,
    now := db.now + 1 }

/-- `getPendingSyncItems(batchSize)`: `SELECT * FROM sync_queue WHERE
synced = 0 ORDER BY created_at ASC LIMIT ?`.  The queue list is kept in
`created_at` ascending order (append-only under the monotone clock), so
the ordering clause is the identity on the filtered list.  Note: no
condition on `retry_count`. -/
def getPendingSyncItems (db : Db) (batchSize : Nat) : List SyncItem :=
  (db.syncQueue.filter (fun i => !i.synced)).take batchSize

/-- `markSyncItemSynced(syncItemId)`: `UPDATE sync_queue SET synced = 1,
synced_at = now WHERE id = ?`. -/
def markSyncItemSynced (db : Db) (syncItemId : Nat) : Db :=
  { db with
    syncQueue := db.syncQueue.map (fun i =>
      if i.id == syncItemId then
        { i with synced := true, synced_at := some db.now }
      else i) }

/-- `incrementSyncRetry(syncItemId)`: `UPDATE sync_queue SET
retry_count = retry_count + 1 WHERE id = ?` — unconditionally. -/
def incrementSyncRetry (db : Db) (syncItemId : Nat) : Db :=
  { db with
    syncQueue := db.syncQueue.map (fun i =>
      if i.id == syncItemId then { i with retry_count := i.retry_count + 1 }
      else i) }

/-! ## Sync processor (`OfflineSyncService`, offline-sync.js lines 8-226)

The service's mutable fields are `syncing` (the single-flight flag) and
`syncInterval` (whether the timer is armed).  `processSyncQueue` runs on
the single-threaded event loop: the `syncing` check and the assignment
`this.syncing = true` execute with no intervening `await`, so they are
one atomic step; other calls can only interleave at the `await`
boundaries inside the item loop.

Whether `await this.processSyncItem(item)` throws for a given item
(`JSON.parse` failure, or a failing external LMS sink once `syncCommit`
is pointed at one) is abstracted as an oracle `sink : SyncItem → Bool`
(`true` = the item processes without throwing). -/

structure SyncSvc where
  syncing : Bool
  autoSync : Bool
  db : Db
deriving DecidableEq

/-- The result object of a `processSyncQueue` pass.  The source returns
`{status: 'already_syncing'}`, `{status: 'no_items', synced: 0}` or
`{status: 'completed', synced, errors, total}`; absent fields are 0. -/
structure PassReport where
  status : String
  synced : Nat
  errors : Nat
  total : Nat
deriving DecidableEq

/-- The `for (const item of pendingItems)` loop: on success mark synced,
on failure increment the retry count (the `retry_count >= maxRetries`
test only logs).  Also returns the ids that were marked synced. -/
def processItems (sink : SyncItem → Bool) (db : Db) :
    List SyncItem → Db × Nat × Nat × List Nat
  | [] => (db, 0, 0, [])
  | it :: rest =>
      if sink it then
        let step := processItems sink (markSyncItemSynced db it.id) rest
        (step.1, step.2.1 + 1, step.2.2.1, it.id :: step.2.2.2)
      else
        let step := processItems sink (incrementSyncRetry db it.id) rest
        (step.1, step.2.1, step.2.2.1 + 1, step.2.2.2)

/-- `processSyncQueue()` (lines 43-90), returning the report, the final
service state, and the ids marked synced during the pass. -/
def processSyncQueue (sink : SyncItem → Bool) (svc : SyncSvc) :
    PassReport × SyncSvc × List Nat :=
  if svc.syncing then
    ({ status := "already_syncing", synced := 0, errors := 0, total := 0 },
     svc, [])
  else
    let pendingItems := getPendingSyncItems svc.db configSyncBatchSize
    if pendingItems.isEmpty then
      ({ status := "no_items", synced := 0, errors := 0, total := 0 },
       { svc with syncing := false }, [])
    else
      let run := processItems sink svc.db pendingItems
      ({ status := "completed", synced := run.2.1, errors := run.2.2.1,
         total := pendingItems.length },
       { svc with syncing := false, db := run.1 }, run.2.2.2)

/-- `triggerSync()` (lines 211-213) just awaits `processSyncQueue`. -/
def triggerSync (sink : SyncItem → Bool) (svc : SyncSvc) :
    PassReport × SyncSvc × List Nat :=
  processSyncQueue sink svc

/-- The service state a concurrent caller observes while a pass started
in `svc` is suspended at an `await`, `k` items into the batch: `syncing`
is `true` and the first `k` items have been applied. -/
def midState (sink : SyncItem → Bool) (svc : SyncSvc) (k : Nat) : SyncSvc :=
  let pendingItems := getPendingSyncItems svc.db configSyncBatchSize
  { svc with
    syncing := true,
    db := (processItems sink svc.db (pendingItems.take k)).1 }

/-- `getSyncStatus()` (lines 190-206): pending items are fetched with a
hard limit of 1000, counted, and grouped by `item.action` in first-seen
order. -/
def bumpAction (acc : List (String × Nat)) (it : SyncItem) :
    List (String × Nat) :=
  match acc.find? (fun p => p.1 == it.action) with
  | some _ => acc.map (fun p => if p.1 == it.action then (p.1, p.2 + 1) else p)
  | none => acc ++ [(it.action, 1)]

def countByAction (items : List SyncItem) : List (String × Nat) :=
  items.foldl bumpAction []

structure SyncStatus where
  pending : Nat
  syncing : Bool
  autoSyncEnabled : Bool
  byAction : List (String × Nat)
deriving DecidableEq

def getSyncStatus (svc : SyncSvc) : SyncStatus :=
  let pendingItems := getPendingSyncItems svc.db 1000
  { pending := pendingItems.length,
    syncing := svc.syncing,
    autoSyncEnabled := svc.autoSync,
    byAction := countByAction pendingItems }

/-! ## Upload boundary (`uploadOfflineSession`, lines 161-185) -/

structure OfflineAction where
  type : String
  data : String
deriving DecidableEq

structure OfflineData where
  sessionId : String
  packageId : String
  actions : List OfflineAction
deriving DecidableEq

structure UploadResult where
  success : Bool
  message : String
deriving DecidableEq

/-- `uploadOfflineSession(offlineData)`: one `createSyncItem` per action
(in order), then an immediate `processSyncQueue` pass, then the success
response.  (`createSyncItem` cannot fail in the model; the source's
`try/catch` re-wrap is therefore not reachable.) -/
def uploadOfflineSession (sink : SyncItem → Bool) (offlineData : OfflineData)
    (svc : SyncSvc) : UploadResult × SyncSvc × List Nat :=
  let svc1 := { svc with
    db := offlineData.actions.foldl (fun db a =>
      createSyncItem db offlineData.sessionId offlineData.packageId a.type a.data)
      svc.db }
  let run := processSyncQueue sink svc1
  ({ success := true,
     message := "Offline session data queued for synchronization" },
   run.2.1, run.2.2)


deriving instance DecidableEq for Except

/-! ## Concrete fixtures and further spec-level definitions used by the
claim theorems -/

/-- Modelled from the spec (for comparison only): claim C2's disjunctive
rule — completed iff the newer shape's `completion_status` equals
`"completed"` OR the older shape's `core.lesson_status` equals
`"completed"` or `"passed"`. -/
def completionOrRule (commitData : JsTree) : Bool :=
  (match (commitData.get? "cmi").bind (fun c => c.get? "completion_status") with
   | some t => isStrLeaf t "completed"
   | none => false) ||
  (match ((commitData.get? "cmi").bind (fun c => c.get? "core")).bind
      (fun c => c.get? "lesson_status") with
   | some t => isStrLeaf t "completed" || isStrLeaf t "passed"
   | none => false)

/-- A fresh session row as `initializeSession` inserts it. -/
def sessionS1 : ScormSession :=
  { id := "s1", package_id := "p1", user_id := none, last_accessed := 0,
    completed := false, success_status := none, score_raw := none,
    session_time := none, total_time := none, suspend_data := none }

def dbS1 : Db :=
  { sessions := [sessionS1], cmiData := [], syncQueue := [],
    nextSyncId := 1, now := 100 }

def emptyDb : Db :=
  { sessions := [], cmiData := [], syncQueue := [], nextSyncId := 1,
    now := 0 }

/-- A queue entry whose processing always fails (its `data` is not valid
JSON, so `processSyncItem`'s `JSON.parse` throws on every attempt). -/
def failingItem : SyncItem :=
  { id := 1, session_id := "s1", package_id := "p1", action := "commit",
    data := "not-json", created_at := 0, synced := false,
    synced_at := none, retry_count := 0 }

def svcOneFailing : SyncSvc :=
  { syncing := false, autoSync := false,
    db := { sessions := [], cmiData := [], syncQueue := [failingItem],
            nextSyncId := 2, now := 1 } }

/-- A pending queue entry, replicated to build deep queues. -/
def pendingStub : SyncItem :=
  { id := 0, session_id := "s", package_id := "p", action := "commit",
    data := "", created_at := 0, synced := false, synced_at := none,
    retry_count := 0 }

def svcBigQueue : SyncSvc :=
  { syncing := false, autoSync := false,
    db := { sessions := [], cmiData := [],
            syncQueue := List.replicate 1001 pendingStub,
            nextSyncId := 1002, now := 0 } }

/-- Repeated processing passes (the timer fires `processSyncQueue` once
per tick). -/
def passes (sink : SyncItem → Bool) (svc : SyncSvc) : Nat → SyncSvc
  | 0 => svc
  | n + 1 => passes sink (processSyncQueue sink svc).2.1 n

/-- Read a per-action counter object (`stats.byAction[a]`, defaulting
to 0). -/
def lookupCount (l : List (String × Nat)) (a : String) : Nat :=
  match l.find? (fun p => p.1 == a) with
  | some p => p.2
  | none => 0

/-- A store with two writes to `cmi.x` (timestamps 1 < 2) and one to
`cmi.y`. -/
def db5 : Db :=
  { sessions := [], cmiData :=
      [{ session_id := "s1", element := "cmi.x", value := "a", timestamp := 1 },
       { session_id := "s1", element := "cmi.x", value := "b", timestamp := 2 },
       { session_id := "s1", element := "cmi.y", value := "zzz", timestamp := 3 }],
    syncQueue := [], nextSyncId := 1, now := 4 }

/-- A commit payload holding every newer-shape summary field as a falsy
scalar: the claim C9 example `{cmi: {score: {raw: 0}}}` extended with
empty-string `session_time`, `total_time` and `suspend_data`. -/
def falsyFieldsPayload : JsTree :=
  JsTree.node [("cmi", JsTree.node
    [("score", JsTree.node [("raw", JsTree.leaf (Scalar.snum 0))]),
     ("session_time", JsTree.leaf (Scalar.sstr "")),
     ("total_time", JsTree.leaf (Scalar.sstr "")),
     ("suspend_data", JsTree.leaf (Scalar.sstr ""))])]

/-- The session row of `dbS1` after committing `falsyFieldsPayload`:
every summary column is `null` (the fallbacks all miss). -/
def sessionS1Committed : ScormSession :=
  { id := "s1", package_id := "p1", user_id := none, last_accessed := 100,
    completed := false, success_status := none, score_raw := none,
    session_time := none, total_time := none, suspend_data := none }

/-- `dbS1` after committing `falsyFieldsPayload` (the falsy values do
land in the `cmi_data` records — only the summary columns drop them). -/
def dbS1AfterFalsyFields : Db :=
  { sessions := [sessionS1Committed],
    cmiData :=
      [{ session_id := "s1", element := "cmi.score.raw",
         value := "0", timestamp := 100 },
       { session_id := "s1", element := "cmi.session_time",
         value := "", timestamp := 101 },
       { session_id := "s1", element := "cmi.total_time",
         value := "", timestamp := 102 },
       { session_id := "s1", element := "cmi.suspend_data",
         value := "", timestamp := 103 }],
    syncQueue := [], nextSyncId := 1, now := 104 }

/-! ## Round-trip infrastructure (claim C1)

The elements emitted by `storeCmiData` are dotted paths; we describe
them abstractly as segment lists (`Seg`): object keys and array
indices.  `treeToJs` is the claim's "T after applying the documented
scalar-to-string coercion to every leaf"; `goodVal` captures the
payloads on which the round-trip can hold (nonempty objects with
distinct, dot-free, non-numeric keys; nonempty arrays whose items are
objects or non-null scalars — the counterexamples show each excluded
shape genuinely breaks the round-trip). -/

/-- One segment of a dotted CMI path. -/
inductive Seg where
  | okey (s : String)
  | aidx (n : Nat)

/-- The string a segment contributes to the dotted path. -/
def Seg.str : Seg → String
  | Seg.okey s => s
  | Seg.aidx n => natRepr n

/-- The element string built by `storeCmiData`'s successive
`` `${element}.${key}` `` joins. -/
def pathStr (pre : String) : List Seg → String
  | [] => pre
  | sg :: rest => pathStr (pre ++ "." ++ sg.str) rest

/-- Element string of a nonempty segment list. -/
def segsStr : List Seg → String
  | [] => ""
  | sg :: rest => pathStr sg.str rest

mutual

/-- The claim's coercion: the payload tree with every scalar leaf
stringified, as a reconstruction-side value. -/
def treeToJs : JsTree → JsVal
  | JsTree.leaf v => JsVal.vstr v.jsString
  | JsTree.node fs => JsVal.vobj (fieldsToJs fs)
  | JsTree.arrNode its => JsVal.varr (itemsToJs its) []

def fieldsToJs : List (String × JsTree) → List (String × JsVal)
  | [] => []
  | (k, t) :: rest => (k, treeToJs t) :: fieldsToJs rest

def itemsToJs : List JsTree → List (Option JsVal)
  | [] => []
  | t :: rest => some (treeToJs t) :: itemsToJs rest

end

/-- An object key that survives the round-trip: nonempty, without dots,
and not numeric-looking (`isNaN(key)` true). -/
def goodKey (k : String) : Bool :=
  !k.isEmpty && k.data.all (fun c => c ≠ '.') && !(jsIsNumeric k)

def distinctKeysB : List String → Bool
  | [] => true
  | k :: rest => !(rest.contains k) && distinctKeysB rest

mutual

/-- A payload value for which flatten-then-rebuild is lossless. -/
def goodVal : JsTree → Bool
  | JsTree.leaf _ => true
  | JsTree.node fs =>
      !fs.isEmpty && distinctKeysB (fs.map (fun p => p.1)) && goodFields fs
  | JsTree.arrNode its => !its.isEmpty && goodItems its

def goodFields : List (String × JsTree) → Bool
  | [] => true
  | (k, v) :: rest => goodKey k && goodVal v && goodFields rest

def goodItems : List JsTree → Bool
  | [] => true
  | JsTree.leaf Scalar.snull :: _ => false
  | JsTree.leaf _ :: rest => goodItems rest
  | JsTree.node fs :: rest => goodVal (JsTree.node fs) && goodItems rest
  | JsTree.arrNode _ :: _ => false

end

/-- The records `storeCmiData`'s field loop emits for one value at one
element (the three-way dispatch of lines 388-403). -/
def valRecs (v : JsTree) (elem : String) :
    Except String (List (String × String)) :=
  match v with
  | JsTree.node fs => storeCmiData (JsTree.node fs) elem
  | JsTree.arrNode its => storeArr its 0 elem
  | JsTree.leaf sc => Except.ok [(elem, sc.jsString)]

/-- Fold `setNestedValue` over records starting from an arbitrary
object (`buildCmi` starts from `{}`). -/
def foldSet (o : JsVal) (records : List (String × String)) :
    Except String JsVal :=
  records.foldlM (fun o r => setNestedValue o r.1 r.2) o

/-- Navigating an existing, truthy reconstruction path: object keys step
through object fields, array indices through array items. -/
inductive Nav : JsVal → List Seg → JsVal → Prop where
  | nil (o : JsVal) : Nav o [] o
  | obj (fields : List (String × JsVal)) (s : String) (c : JsVal)
      (rest : List Seg) (fin : JsVal) :
      goodKey s = true → lookupField fields s = some c →
      jsTruthy c = true → Nav c rest fin →
      Nav (JsVal.vobj fields) (Seg.okey s :: rest) fin
  | arr (items : List (Option JsVal)) (props : List (String × JsVal))
      (i : Nat) (c : JsVal) (rest : List Seg) (fin : JsVal) :
      getItem items i = some c → jsTruthy c = true → Nav c rest fin →
      Nav (JsVal.varr items props) (Seg.aidx i :: rest) fin

/-- A slot not yet occupied: an absent object key, or the next array
index. -/
def slotFresh : JsVal → Seg → Prop
  | JsVal.vobj fields, Seg.okey s => lookupField fields s = none
  | JsVal.varr items _, Seg.aidx i => i = items.length
  | _, _ => False

/-- The chain of containers `setNestedValue` creates below a fresh
slot: every key good, every created array entered at index 0, and no
array directly below an array slot. -/
def chainOK : List Seg → Bool
  | [] => true
  | Seg.okey s :: rest => goodKey s && chainOK rest
  | Seg.aidx i :: rest =>
      (i == 0) &&
      (match rest with | Seg.aidx _ :: _ => false | _ => true) &&
      chainOK rest

/-- A whole fresh path: its head is the slot in the existing parent
(whose index need not be 0), the rest is a created chain. -/
def freshPathOK : Seg → List Seg → Bool
  | Seg.okey s, rest => goodKey s && chainOK rest &&
      (match rest with | Seg.aidx i :: _ => i == 0 | _ => true)
  | Seg.aidx _, rest => chainOK rest &&
      (match rest with
       | Seg.aidx _ :: _ => false
       | Seg.okey _ :: _ => true
       | [] => true)

/-- Write into one slot of a container (`current[k] = x`). -/
def slotPut : Seg → JsVal → JsVal → JsVal
  | Seg.okey s, x, JsVal.vobj fields => JsVal.vobj (setField fields s x)
  | Seg.aidx i, x, JsVal.varr items props =>
      JsVal.varr (setItem items i x) props
  | _, _, p => p

/-- The nested containers created for a fresh chain, holding `x` at its
end. -/
def buildChain : List Seg → JsVal → JsVal
  | [], x => x
  | Seg.okey s :: rest, x => JsVal.vobj [(s, buildChain rest x)]
  | Seg.aidx i :: rest, x =>
      JsVal.varr (setItem [] i (buildChain rest x)) []

/-- Place `x` under the fresh path `slot :: rest` of `parent`. -/
def graft (parent : JsVal) : List Seg → JsVal → JsVal
  | [], x => x
  | slot :: rest, x => slotPut slot (buildChain rest x) parent

/-- Replace the value at an existing path. -/
def updAt : JsVal → List Seg → (JsVal → JsVal) → JsVal
  | o, [], f => f o
  | JsVal.vobj fields, Seg.okey s :: rest, f =>
      match lookupField fields s with
      | some c => JsVal.vobj (setField fields s (updAt c rest f))
      | none => JsVal.vobj fields
  | JsVal.varr items props, Seg.aidx i :: rest, f =>
      match getItem items i with
      | some c => JsVal.varr (setItem items i (updAt c rest f)) props
      | none => JsVal.varr items props
  | o, _, _ => o

/-- Little-endian valuation of a digit list (proof helper for
`natRepr`). -/
def valLE : List Nat → Nat
  | [] => 0
  | d :: rest => d + 10 * valLE rest

/-- Segments whose strings are safe to re-split: dot-free. -/
def segDotFree : Seg → Prop
  | Seg.okey s => '.' ∉ s.data
  | Seg.aidx _ => True

/-- Array items on which `storeArr` emits `valRecs` (not `null`, not a
nested array, matching `goodItems`). -/
def itemShapeOK : JsTree → Prop
  | JsTree.arrNode _ => False
  | JsTree.leaf Scalar.snull => False
  | _ => True

/-! # Claims -/

/-! ## C8 — empty path segments -/

/-- Helper for C8: every error `setNVgo` can produce is one of the two
modelled `TypeError`s (there is no `ValidationError` anywhere in the
reconstruction code). -/
theorem setNVgo_error_isTypeError (keys : List String) :
    ∀ (cur : JsVal) (v e : String), setNVgo cur keys v = Except.error e →
      e = "TypeError: cannot set properties of undefined" ∨
      e = "TypeError: cannot read properties of undefined" := by
  induction keys with
  | nil => intro cur v e h; simp [setNVgo] at h
  | cons k rest ih =>
      intro cur v e h
      match rest with
      | [] => simp [setNVgo] at h
      | nk :: rest' =>
          cases cur with
          | vstr s =>
              match rest' with
              | [] =>
                  simp only [setNVgo] at h
                  split at h
                  · simp at h
                  · simp at h; exact Or.inl h.symm
              | r :: rs =>
                  simp only [setNVgo] at h
                  split at h
                  · simp at h
                  · split at h
                    · simp at h
                    · simp at h; exact Or.inr h.symm
          | vobj fields =>
              simp only [setNVgo] at h
              split at h
              · simp at h
              · cases hrec : setNVgo (objChild (lookupField fields k) nk) (nk :: rest') v with
                | ok w => rw [hrec] at h; simp [Except.map] at h
                | error e1 =>
                    rw [hrec] at h; simp [Except.map] at h
                    exact h ▸ ih _ _ _ hrec
          | varr items props =>
              simp only [setNVgo] at h
              split at h
              · split at h
                next i hi =>
                  cases hrec : setNVgo (freshChild (getItem items i)) (nk :: rest') v with
                  | ok w => rw [hrec] at h; simp [Except.map] at h
                  | error e1 =>
                      rw [hrec] at h; simp [Except.map] at h
                      exact h ▸ ih _ _ _ hrec
                next p hp =>
                  cases hrec : setNVgo (freshChild (lookupField props p)) (nk :: rest') v with
                  | ok w => rw [hrec] at h; simp [Except.map] at h
                  | error e1 =>
                      rw [hrec] at h; simp [Except.map] at h
                      exact h ▸ ih _ _ _ hrec
              · cases hrec : setNVgo (objChild (lookupField props k) nk) (nk :: rest') v with
                | ok w => rw [hrec] at h; simp [Except.map] at h
                | error e1 =>
                    rw [hrec] at h; simp [Except.map] at h
                    exact h ▸ ih _ _ _ hrec

/-- C8 (counterexample): the path `".a"` has an empty first segment; the
claim says the reconstruction side rejects such a path with a
`ValidationError`, but `setNestedValue` returns without error and
without applying anything: the empty segment passes `!isNaN('')`, the
root object is not an array, and the function silently returns. -/
theorem setNestedValue_empty_segment_not_rejected :
    setNestedValue (JsVal.vobj [("x", JsVal.vstr "1")]) ".a" "v" =
      Except.ok (JsVal.vobj [("x", JsVal.vstr "1")]) := rfl

/-- C8 (amended): `setNestedValue` never raises a `ValidationError` on a
malformed path — the only exceptions it can raise are the two
`TypeError`s of navigating through a primitive, and a path whose first
segment is empty is silently dropped on an object root (the empty
segment counts as numeric because `isNaN('') === false`, and the object
root fails the `Array.isArray` test, so the function returns with no
effect). -/
theorem setNestedValue_no_validation_error :
    (∀ (o : JsVal) (p v e : String), setNestedValue o p v = Except.error e →
      e = "TypeError: cannot set properties of undefined" ∨
      e = "TypeError: cannot read properties of undefined") ∧
    (∀ (fields : List (String × JsVal)) (p v : String) (q : List String),
      splitPath p = "" :: q → q ≠ [] →
      setNestedValue (JsVal.vobj fields) p v = Except.ok (JsVal.vobj fields)) := by
  constructor
  · intro o p v e h
    exact setNVgo_error_isTypeError _ _ _ _ h
  · intro fields p v q hsp hq
    unfold setNestedValue
    rw [hsp]
    match q, hq with
    | r :: rs, _ =>
        have hnum : jsIsNumeric "" = true := rfl
        simp [setNVgo, hnum]

/-- Witness for C8's amended theorem at the concrete path `".a.b"`. -/
theorem setNestedValue_no_validation_error_witness :
    setNestedValue (JsVal.vobj []) ".a.b" "v" = Except.ok (JsVal.vobj []) :=
  setNestedValue_no_validation_error.2 [] ".a.b" "v" ["a", "b"] rfl (by simp)

/-! ## C2 — completion derivation -/

/-- C2 (counterexample): for the payload
`{cmi: {completion_status: "incomplete", core: {lesson_status: "passed"}}}`
the claim's if-and-only-if OR rule gives `true` (lesson_status is
"passed"), but `determineCompletion` returns `false`: a truthy
`completion_status` decides alone and the legacy field is ignored. -/
theorem determineCompletion_not_or_rule :
    determineCompletion (JsTree.node [("cmi", JsTree.node
      [("completion_status", JsTree.leaf (Scalar.sstr "incomplete")),
       ("core", JsTree.node [("lesson_status",
         JsTree.leaf (Scalar.sstr "passed"))])])]) = false ∧
    completionOrRule (JsTree.node [("cmi", JsTree.node
      [("completion_status", JsTree.leaf (Scalar.sstr "incomplete")),
       ("core", JsTree.node [("lesson_status",
         JsTree.leaf (Scalar.sstr "passed"))])])]) = true := by
  exact ⟨rfl, rfl⟩

/-- C2 (amended): completion is derived with newer-shape precedence —
when `cmi.completion_status` is truthy it alone decides (equality with
`"completed"`); only otherwise does a truthy `cmi.core.lesson_status`
decide (equality with `"completed"` or `"passed"`); the legacy-shape
commit `{core: {lesson_status: "passed"}}` does derive `completed=true`. -/
theorem determineCompletion_prefers_newer :
    (∀ (d cs : JsTree),
        truthyVal ((cmiOf d).get? "completion_status") = some cs →
        determineCompletion d = isStrLeaf cs "completed") ∧
    (∀ d : JsTree,
        truthyVal ((cmiOf d).get? "completion_status") = none →
        determineCompletion d =
          (match truthyVal (((cmiOf d).get? "core").bind
              (fun c => JsTree.get? c "lesson_status")) with
           | some ls => isStrLeaf ls "completed" || isStrLeaf ls "passed"
           | none => false)) ∧
    determineCompletion (JsTree.node [("cmi", JsTree.node [("core",
      JsTree.node [("lesson_status",
        JsTree.leaf (Scalar.sstr "passed"))])])]) = true := by
  refine ⟨?_, ?_, rfl⟩
  · intro d cs h
    simp only [determineCompletion]
    rw [h]
  · intro d h
    simp only [determineCompletion]
    rw [h]

/-- Witness for C2's amended theorem: its first clause applied to the
payload whose truthy `completion_status` is `"incomplete"`. -/
theorem determineCompletion_prefers_newer_witness :
    determineCompletion (JsTree.node [("cmi", JsTree.node
      [("completion_status", JsTree.leaf (Scalar.sstr "incomplete")),
       ("core", JsTree.node [("lesson_status",
         JsTree.leaf (Scalar.sstr "passed"))])])]) = false := by
  have h := determineCompletion_prefers_newer.1
    (JsTree.node [("cmi", JsTree.node
      [("completion_status", JsTree.leaf (Scalar.sstr "incomplete")),
       ("core", JsTree.node [("lesson_status",
         JsTree.leaf (Scalar.sstr "passed"))])])])
    (JsTree.leaf (Scalar.sstr "incomplete")) rfl
  exact h.trans (by decide)


/-! ## C10 — terminate with an empty payload -/

/-- C10 (counterexample): terminate failures are not confined to the
embedded commit's session lookup.  Here the session `"s1"` exists (the
lookup succeeds), yet `terminateSession` with the non-empty payload
`{cmi: {a: [null]}}` fails: `storeCmiData` hits `Object.entries(null)`
inside the array and throws a `TypeError`. -/
theorem terminateSession_fails_despite_session :
    getSession dbS1 "s1" ≠ none ∧
    terminateSession dbS1 "s1"
      (JsTree.node [("cmi", JsTree.node [("a",
        JsTree.arrNode [JsTree.leaf Scalar.snull])])]) =
      Except.error "TypeError: Cannot convert undefined or null to object" := by
  exact ⟨by decide, by decide⟩

/-- C10 (amended): `terminateSession` with an empty object payload
returns success for every session id — no session-existence check, no
recorded terminated state (the store is unchanged); it can fail only
when the payload has keys (through the embedded commit: unknown
session, unbindable summary value, or a `null` array item in
flattening) or when the payload itself is `null`. -/
theorem terminateSession_empty_payload_always_succeeds :
    (∀ (db : Db) (sid : String),
      terminateSession db sid (JsTree.node []) =
        Except.ok ({ success := true, sessionId := sid }, db)) ∧
    (∀ (db : Db) (sid : String) (p : JsTree) (e : String),
      terminateSession db sid p = Except.error e →
      keysLength p ≠ Except.ok 0) := by
  constructor
  · intro db sid; rfl
  · intro db sid p e h hk
    unfold terminateSession at h
    rw [hk] at h
    simp [bind, Except.bind] at h

/-- Witness for C10's amended theorem: success on a ghost session id of
an empty store, and a concrete failing `null` payload. -/
theorem terminateSession_empty_payload_always_succeeds_witness :
    terminateSession emptyDb "ghost" (JsTree.node []) =
      Except.ok ({ success := true, sessionId := "ghost" }, emptyDb) ∧
    keysLength (JsTree.leaf Scalar.snull) ≠ Except.ok 0 :=
  ⟨terminateSession_empty_payload_always_succeeds.1 emptyDb "ghost",
   terminateSession_empty_payload_always_succeeds.2 emptyDb "s"
     (JsTree.leaf Scalar.snull)
     "TypeError: Cannot convert undefined or null to object" rfl⟩

/-! ## C3 — retry bound -/

/-- C3 (the code contradicts the claim and the repository's own
`OFFLINE_CAPABILITIES.md`, which promises "Retry failed items (max 3
times)"): with `config.sync.maxRetries = 3` and one entry whose
processing always fails, `getPendingSync` has no `retry_count`
condition and `incrementRetry` runs unconditionally, so after 4 passes
the retry count is 4 (not capped at 3), the entry is still selected for
the next batch, and a 5th pass retries it again. -/
theorem retry_not_bounded_by_maxRetries :
    configSyncMaxRetries = 3 ∧
    (passes (fun _ => false) svcOneFailing 4).db.syncQueue.map
        SyncItem.retry_count = [4] ∧
    (getPendingSyncItems (passes (fun _ => false) svcOneFailing 4).db
        configSyncBatchSize).map SyncItem.id = [1] ∧
    (passes (fun _ => false) svcOneFailing 5).db.syncQueue.map
        SyncItem.retry_count = [5] := by
  decide

/-! ## C6 — sync status -/

/-- Helper: incrementing the counter entry of key `k` commutes with
looking a key up. -/
theorem find_bump_map (acc : List (String × Nat)) (k a : String) :
    (acc.map (fun p => if p.1 == k then (p.1, p.2 + 1) else p)).find?
        (fun p => p.1 == a) =
      (acc.find? (fun p => p.1 == a)).map
        (fun p => if p.1 == k then (p.1, p.2 + 1) else p) := by
  have hpred : ((fun p => p.1 == a) ∘
      fun p : String × Nat => if p.1 == k then (p.1, p.2 + 1) else p) =
      (fun p : String × Nat => p.1 == a) := by
    funext p
    by_cases hp : p.1 = k
    · simp [hp]
    · simp [hp]
  rw [List.find?_map, hpred]

/-- Helper: one `stats.byAction[a] = (stats.byAction[a] || 0) + 1` step
adjusts exactly the bumped action's counter. -/
theorem lookupCount_bumpAction (acc : List (String × Nat)) (it : SyncItem)
    (a : String) :
    lookupCount (bumpAction acc it) a =
      lookupCount acc a + (if it.action == a then 1 else 0) := by
  unfold bumpAction
  cases hfind : acc.find? (fun p => p.1 == it.action) with
  | some q =>
      unfold lookupCount
      rw [find_bump_map]
      cases hfind2 : acc.find? (fun p => p.1 == a) with
      | some q2 =>
          have hb0 := List.find?_some hfind2
          have hq2 : q2.1 = a := eq_of_beq (by simpa using hb0)
          by_cases hia : it.action = a
          · subst hia
            have hb : (q2.1 == it.action) = true := beq_iff_eq.mpr hq2
            simp [Option.map, hb]
          · have hne : (q2.1 == it.action) = false :=
              beq_eq_false_iff_ne.mpr (by rw [hq2]; exact fun hcon => hia hcon.symm)
            have hbe : (it.action == a) = false := beq_eq_false_iff_ne.mpr hia
            simp [Option.map, hne, hbe]
      | none =>
          by_cases hia : it.action = a
          · subst hia; rw [hfind] at hfind2; cases hfind2
          · have hbe : (it.action == a) = false := beq_eq_false_iff_ne.mpr hia
            simp [Option.map, hbe]
  | none =>
      unfold lookupCount
      rw [List.find?_append]
      cases hfind2 : acc.find? (fun p => p.1 == a) with
      | some q2 =>
          by_cases hia : it.action = a
          · subst hia; rw [hfind2] at hfind; cases hfind
          · have hbe : (it.action == a) = false := beq_eq_false_iff_ne.mpr hia
            simp [Option.or, hbe]
      | none =>
          by_cases hia : it.action = a
          · subst hia
            simp [Option.or, List.find?]
          · have hbe : (it.action == a) = false := beq_eq_false_iff_ne.mpr hia
            simp [Option.or, List.find?, hbe]

/-- Helper: the per-action counters built by the status fold count the
occurrences of each action. -/
theorem lookupCount_foldl_bumpAction (items : List SyncItem) :
    ∀ (acc : List (String × Nat)) (a : String),
      lookupCount (items.foldl bumpAction acc) a =
        lookupCount acc a + (items.filter (fun i => i.action == a)).length := by
  induction items with
  | nil => intro acc a; simp
  | cons it rest ih =>
      intro acc a
      rw [List.foldl_cons, ih, lookupCount_bumpAction, List.filter_cons]
      by_cases h : it.action == a
      · simp [h]; omega
      · simp [h]

/-- C6 (counterexample): with 1001 pending entries, `getSyncStatus`
reports `pending = 1000` — the query behind it is capped at `LIMIT
1000` — while the true queue depth (the number of entries with
`synced = 0`) is 1001. -/
theorem getSyncStatus_pending_capped_at_1000 :
    (getSyncStatus svcBigQueue).pending = 1000 ∧
    (svcBigQueue.db.syncQueue.filter (fun i => !i.synced)).length = 1001 := by
  have hq : svcBigQueue.db.syncQueue = List.replicate 1001 pendingStub := rfl
  have hfil : (List.replicate 1001 pendingStub).filter (fun i => !i.synced) =
      List.replicate 1001 pendingStub := by
    apply List.filter_eq_self.mpr
    intro x hx
    rw [List.eq_of_mem_replicate hx]
    rfl
  constructor
  · show ((svcBigQueue.db.syncQueue.filter (fun i => !i.synced)).take
      1000).length = 1000
    rw [hq, hfil, List.length_take, List.length_replicate]
    decide
  · rw [hq, hfil, List.length_replicate]

/-- C6 (amended): the status query reports the pending count capped by
the hard `LIMIT 1000` of the underlying query — it equals the true
queue depth exactly when that depth is at most 1000 — grouped by action
kind over the same capped batch, together with the flag saying whether
a pass is currently running. -/
theorem getSyncStatus_reports_capped_depth (svc : SyncSvc) :
    (getSyncStatus svc).pending =
      min 1000 (svc.db.syncQueue.filter (fun i => !i.synced)).length ∧
    ((svc.db.syncQueue.filter (fun i => !i.synced)).length ≤ 1000 →
      (getSyncStatus svc).pending =
        (svc.db.syncQueue.filter (fun i => !i.synced)).length) ∧
    (getSyncStatus svc).syncing = svc.syncing ∧
    (∀ a : String, lookupCount (getSyncStatus svc).byAction a =
      ((getPendingSyncItems svc.db 1000).filter
        (fun i => i.action == a)).length) := by
  have hpend : (getSyncStatus svc).pending =
      min 1000 (svc.db.syncQueue.filter (fun i => !i.synced)).length := by
    show ((svc.db.syncQueue.filter (fun i => !i.synced)).take 1000).length = _
    rw [List.length_take]
  refine ⟨hpend, ?_, rfl, ?_⟩
  · intro h
    rw [hpend]
    omega
  · intro a
    show lookupCount (countByAction (getPendingSyncItems svc.db 1000)) a = _
    unfold countByAction
    rw [lookupCount_foldl_bumpAction]
    simp [lookupCount]

/-- Witness for C6's amended theorem on an empty queue: the reported
depth is the true depth (0 ≤ 1000). -/
theorem getSyncStatus_reports_capped_depth_witness :
    (getSyncStatus { syncing := false, autoSync := false, db := emptyDb }).pending =
      (emptyDb.syncQueue.filter (fun i => !i.synced)).length :=
  (getSyncStatus_reports_capped_depth
    { syncing := false, autoSync := false, db := emptyDb }).2.1 (by decide)

/-! ## C5 — readLatest returns the last write -/

/-- Helper: under a strictly increasing chain, the head is below the
last element of the tail. -/
theorem chain_lt_head_last (l : List CmiRecord) :
    ∀ (x m : CmiRecord),
      List.Chain' (fun a b => a.timestamp < b.timestamp) (x :: l) →
      l.getLast? = some m → x.timestamp < m.timestamp := by
  induction l with
  | nil => intro x m _ hlast; cases hlast
  | cons y l' ih =>
      intro x m hchain hlast
      have hpair := List.chain'_cons.mp hchain
      cases l' with
      | nil =>
          simp at hlast
          rw [← hlast]
          exact hpair.1
      | cons z l'' =>
          rw [List.getLast?_cons_cons] at hlast
          exact Nat.lt_trans hpair.1 (ih y m hpair.2 hlast)

/-- Helper: on a strictly-increasing record list, the maximum-timestamp
row (`ORDER BY timestamp DESC LIMIT 1`) is the last one. -/
theorem latestRecord_of_chain (l : List CmiRecord) :
    List.Chain' (fun a b => a.timestamp < b.timestamp) l →
    latestRecord l = l.getLast? := by
  induction l with
  | nil => intro _; rfl
  | cons r rest ih =>
      intro hchain
      cases rest with
      | nil => rfl
      | cons r2 rest2 =>
          have hpair := List.chain'_cons.mp hchain
          unfold latestRecord
          rw [ih hpair.2]
          cases hlast : (r2 :: rest2).getLast? with
          | none => simp at hlast
          | some m =>
              have hlt : r.timestamp < m.timestamp :=
                chain_lt_head_last (r2 :: rest2) r m hchain hlast
              rw [List.getLast?_cons_cons, hlast]
              simp [hlt]

/-- C5: when the records for one session and one exact element carry
strictly increasing timestamps (the write order), the single-element
`getCmiData` — `SELECT ... ORDER BY timestamp DESC LIMIT 1` — returns
the value of the last write, and `none` (SQL `null`) when no record
exists. -/
theorem getCmiDataElement_returns_last_write (db : Db) (sid el : String) :
    List.Chain' (fun a b => a.timestamp < b.timestamp)
      (db.cmiData.filter (fun r => r.session_id == sid && r.element == el)) →
    getCmiDataElement db sid el =
      ((db.cmiData.filter
        (fun r => r.session_id == sid && r.element == el)).getLast?).map
        (fun r => r.value) := by
  intro hchain
  unfold getCmiDataElement
  rw [latestRecord_of_chain _ hchain]

/-- Witness for C5 at a concrete store: two writes to `cmi.x` at
timestamps 1 and 2; the read returns the second value `"b"`. -/
theorem getCmiDataElement_returns_last_write_witness :
    getCmiDataElement db5 "s1" "cmi.x" = some "b" :=
  (getCmiDataElement_returns_last_write db5 "s1" "cmi.x" (by
    rw [show db5.cmiData.filter
        (fun r => r.session_id == "s1" && r.element == "cmi.x") =
        [{ session_id := "s1", element := "cmi.x", value := "a",
           timestamp := 1 },
         { session_id := "s1", element := "cmi.x", value := "b",
           timestamp := 2 }] from rfl]
    exact List.chain'_cons.mpr ⟨by decide, List.chain'_singleton _⟩)).trans
    (by decide)

/-! ## C7 — upload boundary -/

/-- Helper: the enqueue loop of `uploadOfflineSession` appends exactly
one fresh pending entry per action, in order. -/
theorem foldl_createSyncItem (sid pid : String) :
    ∀ (actions : List OfflineAction) (db : Db),
      ∃ items : List SyncItem,
        actions.foldl (fun db a =>
          createSyncItem db sid pid a.type a.data) db =
          { db with
            syncQueue := db.syncQueue ++ items,
            nextSyncId := db.nextSyncId + actions.length,
            now := db.now + actions.length } ∧
        items.length = actions.length ∧
        items.all (fun it => !it.synced && it.retry_count == 0) = true ∧
        items.map (fun i => (i.session_id, i.package_id, i.action, i.data)) =
          actions.map (fun a => (sid, pid, a.type, a.data)) := by
  intro actions
  induction actions with
  | nil =>
      intro db
      exact ⟨[], by simp, rfl, rfl, rfl⟩
  | cons a rest ih =>
      intro db
      obtain ⟨items, heq, hlen, hall, hmap⟩ :=
        ih (createSyncItem db sid pid a.type a.data)
      refine ⟨{ id := db.nextSyncId, session_id := sid, package_id := pid,
                action := a.type, data := a.data, created_at := db.now,
                synced := false, synced_at := none,
                retry_count := 0 } :: items,
        ?_, by simp [hlen], by simp [hall], by simp [hmap]⟩
      rw [List.foldl_cons, heq]
      simp [createSyncItem]
      omega

/-- C7: `uploadOfflineSession` turns each action of the batch into
exactly one new pending sync queue entry (same session/package, action
kind from `action.type`, payload from `action.data`, `synced = 0`,
`retry_count = 0`, in batch order), and then runs a `processSyncQueue`
pass on the enqueued state before returning its success response. -/
theorem uploadOfflineSession_enqueues_then_syncs (sink : SyncItem → Bool)
    (od : OfflineData) (svc : SyncSvc) :
    ∃ items : List SyncItem,
      items.length = od.actions.length ∧
      items.all (fun it => !it.synced && it.retry_count == 0) = true ∧
      items.map (fun i => (i.session_id, i.package_id, i.action, i.data)) =
        od.actions.map (fun a => (od.sessionId, od.packageId, a.type, a.data)) ∧
      uploadOfflineSession sink od svc =
        ({ success := true,
           message := "Offline session data queued for synchronization" },
         (processSyncQueue sink { svc with db := { svc.db with
            syncQueue := svc.db.syncQueue ++ items,
            nextSyncId := svc.db.nextSyncId + od.actions.length,
            now := svc.db.now + od.actions.length } }).2.1,
         (processSyncQueue sink { svc with db := { svc.db with
            syncQueue := svc.db.syncQueue ++ items,
            nextSyncId := svc.db.nextSyncId + od.actions.length,
            now := svc.db.now + od.actions.length } }).2.2) := by
  obtain ⟨items, heq, hlen, hall, hmap⟩ :=
    foldl_createSyncItem od.sessionId od.packageId od.actions svc.db
  refine ⟨items, hlen, hall, hmap, ?_⟩
  unfold uploadOfflineSession
  rw [heq]

/-! ## C4 — single-flight guard -/

/-- Helper: the ids a pass marks synced are exactly the ids of the
sink-successful items of its batch, independent of store state. -/
theorem processItems_marks (sink : SyncItem → Bool) :
    ∀ (items : List SyncItem) (db : Db),
      (processItems sink db items).2.2.2 =
        (items.filter sink).map (fun i => i.id) := by
  intro items
  induction items with
  | nil => intro db; rfl
  | cons it rest ih =>
      intro db
      unfold processItems
      cases hs : sink it with
      | true => simp [hs, ih, List.filter_cons]
      | false => simp [hs, ih, List.filter_cons]

/-- C4: the single-flight guard.  (1) While a pass started from an idle
state is suspended at any of its `await` points (`midState` after `k`
items), a concurrent `triggerSync` — whatever its sink does — returns
the `already_syncing` report immediately, changes nothing, and marks no
entry.  (2) A pass from an idle state marks each queue entry at most
once (its marked-id list is duplicate-free when the queue ids are).
Together: two concurrent `triggerSync` calls never mark the same entry
synced twice. -/
theorem triggerSync_single_flight (sink sink2 : SyncItem → Bool)
    (svc : SyncSvc) (k : Nat) :
    (triggerSync sink2 (midState sink svc k) =
      ({ status := "already_syncing", synced := 0, errors := 0, total := 0 },
       midState sink svc k, [])) ∧
    ((svc.db.syncQueue.map (fun i => i.id)).Nodup →
      (triggerSync sink svc).2.2.Nodup) := by
  constructor
  · rfl
  · intro hnd
    unfold triggerSync processSyncQueue
    split
    · simp
    · by_cases hp : (getPendingSyncItems svc.db configSyncBatchSize).isEmpty
      · simp [hp]
      · simp only [hp, Bool.false_eq_true, if_false, processItems_marks]
        have hsub : (((getPendingSyncItems svc.db
            configSyncBatchSize).filter sink).map (fun i => i.id)).Sublist
            (svc.db.syncQueue.map (fun i => i.id)) := by
          apply List.Sublist.map
          exact (List.filter_sublist _).trans
            ((List.take_sublist _ _).trans (List.filter_sublist _))
        exact List.Nodup.sublist hsub hnd

/-- Witness for C4 at a concrete one-entry queue: a second trigger
during the pass reports `already_syncing` and marks nothing; the pass
itself marks without duplicates. -/
theorem triggerSync_single_flight_witness :
    (triggerSync (fun _ => true) (midState (fun _ => true) svcOneFailing 0) =
      ({ status := "already_syncing", synced := 0, errors := 0, total := 0 },
       midState (fun _ => true) svcOneFailing 0, [])) ∧
    (triggerSync (fun _ => true) svcOneFailing).2.2.Nodup :=
  ⟨(triggerSync_single_flight (fun _ => true) (fun _ => true)
      svcOneFailing 0).1,
   (triggerSync_single_flight (fun _ => true) (fun _ => true)
      svcOneFailing 0).2 (by decide)⟩

/-! ## C9 — falsy newer-shape fields fall through `||` -/

/-- Helper: a value that survives the truthiness filter is truthy. -/
theorem truthyVal_some {o : Option JsTree} {t : JsTree}
    (h : truthyVal o = some t) : jsTruthyTree t = true := by
  unfold truthyVal at h
  cases o with
  | none => cases h
  | some u =>
      by_cases hu : jsTruthyTree u
      · simp [hu] at h; rw [← h]; exact hu
      · simp [hu] at h

/-- Helper: inserting CMI records never touches the session rows. -/
theorem applyRecords_sessions :
    ∀ (recs : List (String × String)) (db : Db) (sid : String),
      (applyRecords db sid recs).sessions = db.sessions := by
  intro recs
  induction recs with
  | nil => intro db sid; rfl
  | cons r rest ih => intro db sid; exact ih _ _

/-- Helper: looking a session up after a per-row update that preserves
ids. -/
theorem find_session_map_update (l : List ScormSession) (sid : String)
    (f : ScormSession → ScormSession) (hf : ∀ s, (f s).id = s.id) :
    (l.map f).find? (fun s => s.id == sid) =
      (l.find? (fun s => s.id == sid)).map f := by
  rw [List.find?_map]
  have hpred : ((fun s => s.id == sid) ∘ f) =
      fun s : ScormSession => s.id == sid := by
    funext s
    simp [hf s]
  rw [hpred]

/-- Helper for C9: binding `a || b || null` when the newer-shape operand
`a` is present but falsy: the falsy value falls through, so the bound
value is the truthy legacy leaf's scalar or `null`, and any scalar that
does get bound came from a truthy leaf. -/
theorem bindValue_firstTruthy_falsy (r : JsTree) (leg : Option JsTree)
    (v : Option Scalar) (hfalsy : jsTruthyTree r = false)
    (hb : bindValue (firstTruthy [some r, leg]) = Except.ok v) :
    (v = none ∨ ∃ sc : Scalar,
      truthyVal leg = some (JsTree.leaf sc) ∧ v = some sc) ∧
    ∀ sc : Scalar, v = some sc → jsTruthyTree (JsTree.leaf sc) = true := by
  have hft : truthyVal (some r) = none := by simp [truthyVal, hfalsy]
  simp only [firstTruthy, hft] at hb
  cases hleg : truthyVal leg with
  | none =>
      rw [hleg] at hb
      dsimp only at hb
      simp [bindValue] at hb
      subst hb
      exact ⟨Or.inl rfl, by intro sc h; cases h⟩
  | some t =>
      rw [hleg] at hb
      dsimp only at hb
      have htruthy := truthyVal_some hleg
      cases t with
      | leaf sc0 =>
          cases sc0 with
          | sstr s2 =>
              simp [bindValue] at hb
              subst hb
              refine ⟨Or.inr ⟨Scalar.sstr s2, rfl, rfl⟩, ?_⟩
              intro sc h
              injection h with h2
              rw [← h2]
              exact htruthy
          | snum n =>
              simp [bindValue] at hb
              subst hb
              refine ⟨Or.inr ⟨Scalar.snum n, rfl, rfl⟩, ?_⟩
              intro sc h
              injection h with h2
              rw [← h2]
              exact htruthy
          | sbool b => simp [bindValue] at hb
          | snull =>
              simp [bindValue] at hb
              subst hb
              exact ⟨Or.inl rfl, by intro sc h; cases h⟩
      | node fs => simp [bindValue] at hb
      | arrNode its => simp [bindValue] at hb

/-- C9: `commitSession` derives every summary field with a `||` fallback
chain, so whenever a newer-shape field is present but falsy — a
`cmi.score.raw` of 0, or an empty-string `cmi.session_time`,
`cmi.total_time` or `cmi.suspend_data` — the stored column holds the
truthy legacy-shape (`cmi.core.*`) value or `null`, never the given
falsy value: `score_raw` is never stored as 0, and the three string
columns are never stored as the empty string. -/
theorem commitSession_falsy_newer_fields (db : Db) (sid : String)
    (d : JsTree) (res : ApiResult) (db' : Db)
    (hc : commitSession db sid d = Except.ok (res, db')) :
    ∀ s', getSession db' sid = some s' →
      (∀ r, ((d.get? "cmi").bind (fun c => c.get? "score")).bind
          (fun c => c.get? "raw") = some r → jsTruthyTree r = false →
        (s'.score_raw = none ∨ ∃ sc : Scalar,
          truthyVal ((((d.get? "cmi").bind (fun c => c.get? "core")).bind
            (fun c => c.get? "score")).bind (fun c => c.get? "raw")) =
            some (JsTree.leaf sc) ∧ s'.score_raw = some sc) ∧
        s'.score_raw ≠ some (Scalar.snum 0)) ∧
      (∀ r, (d.get? "cmi").bind (fun c => c.get? "session_time") = some r →
          jsTruthyTree r = false →
        (s'.session_time = none ∨ ∃ sc : Scalar,
          truthyVal (((d.get? "cmi").bind (fun c => c.get? "core")).bind
            (fun c => c.get? "session_time")) = some (JsTree.leaf sc) ∧
          s'.session_time = some sc) ∧
        s'.session_time ≠ some (Scalar.sstr "")) ∧
      (∀ r, (d.get? "cmi").bind (fun c => c.get? "total_time") = some r →
          jsTruthyTree r = false →
        (s'.total_time = none ∨ ∃ sc : Scalar,
          truthyVal (((d.get? "cmi").bind (fun c => c.get? "core")).bind
            (fun c => c.get? "total_time")) = some (JsTree.leaf sc) ∧
          s'.total_time = some sc) ∧
        s'.total_time ≠ some (Scalar.sstr "")) ∧
      (∀ r, (d.get? "cmi").bind (fun c => c.get? "suspend_data") = some r →
          jsTruthyTree r = false →
        (s'.suspend_data = none ∨ ∃ sc : Scalar,
          truthyVal (((d.get? "cmi").bind (fun c => c.get? "core")).bind
            (fun c => c.get? "suspend_data")) = some (JsTree.leaf sc) ∧
          s'.suspend_data = some sc) ∧
        s'.suspend_data ≠ some (Scalar.sstr "")) := by
  intro s' hs'
  unfold commitSession at hc
  cases hg : getSession db sid with
  | none => rw [hg] at hc; simp at hc
  | some s0 =>
      rw [hg] at hc
      dsimp only at hc
      simp only [bind, Except.bind] at hc
      split at hc
      · simp at hc
      next ss hss =>
        split at hc
        · simp at hc
        next sr hsr =>
          split at hc
          · simp at hc
          next st hst =>
            split at hc
            · simp at hc
            next tt htt =>
              split at hc
              · simp at hc
              next sd hsd =>
                split at hc
                · simp at hc
                next recs hrecs =>
                  injection hc with hc1
                  injection hc1 with hres hdb
                  subst hdb
                  unfold getSession at hs' hg
                  rw [applyRecords_sessions] at hs'
                  dsimp only at hs'
                  rw [find_session_map_update _ sid _ (by
                    intro s
                    by_cases hid : s.id == sid
                    · simp [hid]
                    · simp [hid])] at hs'
                  rw [hg] at hs'
                  have hid0 : (s0.id == sid) = true := by
                    have := List.find?_some hg
                    simpa using this
                  simp only [Option.map, hid0, if_pos] at hs'
                  injection hs' with hs'e
                  have hfield : s'.score_raw = sr ∧ s'.session_time = st ∧
                      s'.total_time = tt ∧ s'.suspend_data = sd := by
                    rw [← hs'e]
                    exact ⟨rfl, rfl, rfl, rfl⟩
                  refine ⟨?_, ?_, ?_, ?_⟩
                  · intro r hnew hfalsy
                    rw [hnew] at hsr
                    obtain ⟨h1, h2⟩ :=
                      bindValue_firstTruthy_falsy r _ sr hfalsy hsr
                    constructor
                    · rcases h1 with h1 | ⟨sc, hsc1, hsc2⟩
                      · exact Or.inl (hfield.1.trans h1)
                      · exact Or.inr ⟨sc, hsc1, hfield.1.trans hsc2⟩
                    · intro heq
                      have h3 := h2 (Scalar.snum 0)
                        (hfield.1.symm.trans heq)
                      simp [jsTruthyTree] at h3
                  · intro r hnew hfalsy
                    rw [hnew] at hst
                    obtain ⟨h1, h2⟩ :=
                      bindValue_firstTruthy_falsy r _ st hfalsy hst
                    constructor
                    · rcases h1 with h1 | ⟨sc, hsc1, hsc2⟩
                      · exact Or.inl (hfield.2.1.trans h1)
                      · exact Or.inr ⟨sc, hsc1, hfield.2.1.trans hsc2⟩
                    · intro heq
                      have h3 := h2 (Scalar.sstr "")
                        (hfield.2.1.symm.trans heq)
                      simp [jsTruthyTree] at h3
                      exact absurd h3 (by decide)
                  · intro r hnew hfalsy
                    rw [hnew] at htt
                    obtain ⟨h1, h2⟩ :=
                      bindValue_firstTruthy_falsy r _ tt hfalsy htt
                    constructor
                    · rcases h1 with h1 | ⟨sc, hsc1, hsc2⟩
                      · exact Or.inl (hfield.2.2.1.trans h1)
                      · exact Or.inr ⟨sc, hsc1, hfield.2.2.1.trans hsc2⟩
                    · intro heq
                      have h3 := h2 (Scalar.sstr "")
                        (hfield.2.2.1.symm.trans heq)
                      simp [jsTruthyTree] at h3
                      exact absurd h3 (by decide)
                  · intro r hnew hfalsy
                    rw [hnew] at hsd
                    obtain ⟨h1, h2⟩ :=
                      bindValue_firstTruthy_falsy r _ sd hfalsy hsd
                    constructor
                    · rcases h1 with h1 | ⟨sc, hsc1, hsc2⟩
                      · exact Or.inl (hfield.2.2.2.trans h1)
                      · exact Or.inr ⟨sc, hsc1, hfield.2.2.2.trans hsc2⟩
                    · intro heq
                      have h3 := h2 (Scalar.sstr "")
                        (hfield.2.2.2.symm.trans heq)
                      simp [jsTruthyTree] at h3
                      exact absurd h3 (by decide)

/-- Witness for C9: committing `{cmi: {score: {raw: 0}, session_time:
"", total_time: "", suspend_data: ""}}` against the one-session store
`dbS1` persists `score_raw` as `null` (not 0) and the three string
columns as `null` (not `""`). -/
theorem commitSession_falsy_newer_fields_witness :
    sessionS1Committed.score_raw ≠ some (Scalar.snum 0) ∧
    sessionS1Committed.session_time ≠ some (Scalar.sstr "") ∧
    sessionS1Committed.total_time ≠ some (Scalar.sstr "") ∧
    sessionS1Committed.suspend_data ≠ some (Scalar.sstr "") := by
  have h := commitSession_falsy_newer_fields dbS1 "s1" falsyFieldsPayload
    { success := true, sessionId := "s1" } dbS1AfterFalsyFields (by decide)
    sessionS1Committed (by decide)
  exact ⟨(h.1 (JsTree.leaf (Scalar.snum 0)) rfl rfl).2,
    (h.2.1 (JsTree.leaf (Scalar.sstr "")) rfl rfl).2,
    (h.2.2.1 (JsTree.leaf (Scalar.sstr "")) rfl rfl).2,
    (h.2.2.2 (JsTree.leaf (Scalar.sstr "")) rfl rfl).2⟩

/-! ## C1 — round-trip: decimal representation lemmas -/

theorem natDigitsRev_lt10 :
    ∀ n, ∀ d ∈ natDigitsRev n, d < 10 := by
  intro n
  induction n using Nat.strong_induction_on with
  | _ n ih =>
      match n with
      | 0 => intro d hd; simp [natDigitsRev] at hd
      | m + 1 =>
          intro d hd
          rw [natDigitsRev] at hd
          rcases List.mem_cons.mp hd with h | h
          · subst h; exact Nat.mod_lt _ (by decide)
          · exact ih ((m + 1) / 10)
              (Nat.div_lt_self (Nat.succ_pos m) (by decide)) d h

theorem valLE_natDigitsRev : ∀ n, valLE (natDigitsRev n) = n := by
  intro n
  induction n using Nat.strong_induction_on with
  | _ n ih =>
      match n with
      | 0 => rw [natDigitsRev]; rfl
      | m + 1 =>
          rw [natDigitsRev]
          simp only [valLE]
          rw [ih ((m + 1) / 10)
            (Nat.div_lt_self (Nat.succ_pos m) (by decide))]
          exact Nat.mod_add_div (m + 1) 10

theorem natDigitsRev_ne_nil (n : Nat) (h : n ≠ 0) : natDigitsRev n ≠ [] := by
  match n with
  | 0 => exact absurd rfl h
  | m + 1 => rw [natDigitsRev]; simp

theorem natDigitsRev_last_ne_zero :
    ∀ n, n ≠ 0 → ∀ d, (natDigitsRev n).getLast? = some d → d ≠ 0 := by
  intro n
  induction n using Nat.strong_induction_on with
  | _ n ih =>
      match n with
      | 0 => intro h; exact absurd rfl h
      | m + 1 =>
          intro _ d hd
          rw [natDigitsRev] at hd
          by_cases hdiv : (m + 1) / 10 = 0
          · have hlt : m + 1 < 10 := by omega
            rw [hdiv] at hd
            simp [natDigitsRev] at hd
            rw [Nat.mod_eq_of_lt hlt] at hd
            omega
          · cases hrev : natDigitsRev ((m + 1) / 10) with
            | nil => exact absurd hrev (natDigitsRev_ne_nil _ hdiv)
            | cons e l' =>
                rw [hrev, List.getLast?_cons_cons] at hd
                exact ih ((m + 1) / 10)
                  (Nat.div_lt_self (Nat.succ_pos m) (by decide)) hdiv d
                  (hrev ▸ hd)

theorem digitVal_natDigitChar (d : Nat) (h : d < 10) :
    digitVal (natDigitChar d) = d := by
  interval_cases d <;> rfl

theorem natDigitChar_isDigit (d : Nat) : (natDigitChar d).isDigit = true := by
  unfold natDigitChar
  split <;> decide

theorem natDigitChar_ne_zero (d : Nat) (hd : d ≠ 0) :
    natDigitChar d ≠ '0' := by
  unfold natDigitChar
  split
  · exact absurd rfl hd
  all_goals decide

theorem natRepr_digits (n : Nat) :
    ∀ c ∈ (natRepr n).data, c.isDigit = true := by
  unfold natRepr
  split
  · intro c hc
    simp [String.data] at hc
    subst hc
    decide
  · intro c hc
    have : (String.mk ((natDigitsRev n).reverse.map natDigitChar)).data =
        (natDigitsRev n).reverse.map natDigitChar := rfl
    rw [this] at hc
    rcases List.mem_map.mp hc with ⟨d, _, hdc⟩
    rw [← hdc]
    exact natDigitChar_isDigit d

theorem natRepr_ne_nil (n : Nat) : (natRepr n).data ≠ [] := by
  unfold natRepr
  split
  · simp [String.data]
  next h =>
    have : (String.mk ((natDigitsRev n).reverse.map natDigitChar)).data =
        (natDigitsRev n).reverse.map natDigitChar := rfl
    rw [this]
    simp
    exact natDigitsRev_ne_nil n h

theorem natOfDigits_append (l : List Char) (c : Char) :
    natOfDigits (l ++ [c]) = natOfDigits l * 10 + digitVal c := by
  simp [natOfDigits, List.foldl_append]

theorem natOfDigits_rev_map :
    ∀ ds : List Nat, (∀ d ∈ ds, d < 10) →
      natOfDigits (ds.reverse.map natDigitChar) = valLE ds := by
  intro ds
  induction ds with
  | nil => intro _; rfl
  | cons d rest ih =>
      intro h
      rw [List.reverse_cons, List.map_append, List.map_cons, List.map_nil,
        natOfDigits_append, ih (fun e he => h e (List.mem_cons_of_mem d he)),
        digitVal_natDigitChar d (h d (List.mem_cons_self d rest))]
      simp only [valLE]
      omega

theorem natOfDigits_natRepr (n : Nat) : natOfDigits (natRepr n).data = n := by
  unfold natRepr
  split
  next h => subst h; decide
  next h =>
      have hdata : (String.mk ((natDigitsRev n).reverse.map natDigitChar)).data =
          (natDigitsRev n).reverse.map natDigitChar := rfl
      rw [hdata, natOfDigits_rev_map _ (natDigitsRev_lt10 n),
        valLE_natDigitsRev]

/-! ## C1 — digit strings through the JavaScript numeric predicates -/

theorem isDigit_char_ne (c d : Char) (h : c.isDigit = true)
    (hd : d.isDigit = false) : c ≠ d := by
  intro he
  subst he
  rw [h] at hd
  cases hd

theorem digit_not_ws (c : Char) (h : c.isDigit = true) : jsWs c = false := by
  simp only [jsWs, Bool.or_eq_false_iff, beq_eq_false_iff_ne]
  exact ⟨⟨⟨isDigit_char_ne c ' ' h (by decide),
    isDigit_char_ne c '\t' h (by decide)⟩,
    isDigit_char_ne c '\n' h (by decide)⟩,
    isDigit_char_ne c '\r' h (by decide)⟩

theorem dropWhile_jsWs_digits (l : List Char)
    (h : ∀ c ∈ l, c.isDigit = true) : l.dropWhile jsWs = l := by
  cases l with
  | nil => rfl
  | cons c r =>
      rw [List.dropWhile_cons, digit_not_ws c (h c (List.mem_cons_self c r))]
      simp

theorem trimChars_digits (l : List Char)
    (h : ∀ c ∈ l, c.isDigit = true) : trimChars l = l := by
  unfold trimChars
  rw [dropWhile_jsWs_digits l h,
    dropWhile_jsWs_digits l.reverse (fun c hc => h c (List.mem_reverse.mp hc)),
    List.reverse_reverse]

theorem stripSign_digits (l : List Char)
    (h : ∀ c ∈ l, c.isDigit = true) : stripSign l = l := by
  rw [stripSign.eq_def]
  split
  next a b =>
    exfalso
    have := h '+' (List.mem_cons_self _ _)
    simp at this
  next a b =>
    exfalso
    have := h '-' (List.mem_cons_self _ _)
    simp at this
  next => rfl

theorem takeWhile_digits (l : List Char)
    (h : ∀ c ∈ l, c.isDigit = true) : l.takeWhile Char.isDigit = l := by
  induction l with
  | nil => rfl
  | cons c r ih =>
      rw [List.takeWhile_cons, h c (List.mem_cons_self c r)]
      simp [ih (fun e he => h e (List.mem_cons_of_mem c he))]

theorem dropWhile_digits (l : List Char)
    (h : ∀ c ∈ l, c.isDigit = true) : l.dropWhile Char.isDigit = [] := by
  induction l with
  | nil => rfl
  | cons c r ih =>
      rw [List.dropWhile_cons, h c (List.mem_cons_self c r)]
      simp [ih (fun e he => h e (List.mem_cons_of_mem c he))]

theorem jsDecNumber_digits (l : List Char) (hne : l ≠ [])
    (h : ∀ c ∈ l, c.isDigit = true) : jsDecNumber l = true := by
  unfold jsDecNumber
  rw [takeWhile_digits l h, dropWhile_digits l h]
  simp [hne]

theorem jsIsNumeric_digits (s : String) (hne : s.data ≠ [])
    (h : ∀ c ∈ s.data, c.isDigit = true) : jsIsNumeric s = true := by
  simp only [jsIsNumeric]
  rw [trimChars_digits s.data h]
  split
  next heq => exact absurd heq hne
  next heq =>
    have := h 'x' (heq ▸ List.mem_cons_of_mem _ (List.mem_cons_self _ _))
    simp at this
  next heq =>
    have := h 'X' (heq ▸ List.mem_cons_of_mem _ (List.mem_cons_self _ _))
    simp at this
  next heq =>
    have := h 'o' (heq ▸ List.mem_cons_of_mem _ (List.mem_cons_self _ _))
    simp at this
  next heq =>
    have := h 'O' (heq ▸ List.mem_cons_of_mem _ (List.mem_cons_self _ _))
    simp at this
  next heq =>
    have := h 'b' (heq ▸ List.mem_cons_of_mem _ (List.mem_cons_self _ _))
    simp at this
  next heq =>
    have := h 'B' (heq ▸ List.mem_cons_of_mem _ (List.mem_cons_self _ _))
    simp at this
  next =>
    rw [stripSign_digits s.data h]
    simp [jsDecNumber_digits s.data hne h]

theorem jsIsNumeric_natRepr (n : Nat) : jsIsNumeric (natRepr n) = true :=
  jsIsNumeric_digits (natRepr n) (natRepr_ne_nil n) (natRepr_digits n)

theorem parseIntJs_digits (s : String) (hne : s.data ≠ [])
    (h : ∀ c ∈ s.data, c.isDigit = true) :
    parseIntJs s = some (natOfDigits s.data : Int) := by
  simp only [parseIntJs]
  rw [trimChars_digits s.data h]
  have hsign : (match s.data with
      | '-' :: _ => (-1 : Int)
      | _ => 1) = 1 := by
    split
    next heq =>
      have := h '-' (heq ▸ List.mem_cons_self _ _)
      simp at this
    next => rfl
  rw [hsign, stripSign_digits s.data h]
  split
  next heq =>
    have := h 'x' (heq ▸ List.mem_cons_of_mem _ (List.mem_cons_self _ _))
    simp at this
  next heq =>
    have := h 'X' (heq ▸ List.mem_cons_of_mem _ (List.mem_cons_self _ _))
    simp at this
  next =>
    rw [takeWhile_digits s.data h]
    simp [hne]

theorem parseIntJs_natRepr (n : Nat) :
    parseIntJs (natRepr n) = some (n : Int) := by
  rw [parseIntJs_digits (natRepr n) (natRepr_ne_nil n) (natRepr_digits n),
    natOfDigits_natRepr]

theorem arrKeyOf_natRepr (n : Nat) : arrKeyOf (natRepr n) = ArrKey.idx n := by
  unfold arrKeyOf
  rw [parseIntJs_natRepr]
  simp

theorem natRepr_head_ne_zero (n : Nat) (hn : n ≠ 0) (c : Char)
    (rest : List Char) (hdata : (natRepr n).data = c :: rest) : c ≠ '0' := by
  unfold natRepr at hdata
  rw [if_neg hn] at hdata
  have hmk : (String.mk ((natDigitsRev n).reverse.map natDigitChar)).data =
      (natDigitsRev n).reverse.map natDigitChar := rfl
  rw [hmk] at hdata
  have hhead : ((natDigitsRev n).reverse.map natDigitChar).head? = some c := by
    rw [hdata]; rfl
  rw [List.head?_map, List.head?_reverse] at hhead
  cases hlast : (natDigitsRev n).getLast? with
  | none => rw [hlast] at hhead; cases hhead
  | some d =>
      rw [hlast] at hhead
      simp [Option.map] at hhead
      rw [← hhead]
      exact natDigitChar_ne_zero d (natDigitsRev_last_ne_zero n hn d hlast)

theorem canonicalIndex_natRepr (n : Nat) :
    canonicalIndex? (natRepr n) = some n := by
  by_cases hn : n = 0
  · subst hn; decide
  · unfold canonicalIndex?
    split
    next heq => exact absurd heq (natRepr_ne_nil n)
    next c rest heq =>
      rw [if_pos]
      · rw [← heq, natOfDigits_natRepr]
      · have h1 : ∀ x ∈ (natRepr n).data, x.isDigit = true := natRepr_digits n
        rw [heq] at h1
        simp only [Bool.and_eq_true, Bool.or_eq_true, decide_eq_true_eq,
          List.all_eq_true]
        exact ⟨h1, Or.inl (natRepr_head_ne_zero n hn c rest heq)⟩

/-! ## C1 — splitting the dotted paths built by `storeCmiData` -/

theorem splitOnDot_ne_nil : ∀ l : List Char, splitOnDot l ≠ [] := by
  intro l
  match l with
  | [] => simp [splitOnDot]
  | c :: r =>
      unfold splitOnDot
      by_cases hc : c = '.'
      · simp [hc]
      · simp only [hc, if_false]
        cases hsp : splitOnDot r with
        | nil => exact absurd hsp (splitOnDot_ne_nil r)
        | cons a as => simp

theorem splitOnDot_no_dot :
    ∀ l : List Char, '.' ∉ l → splitOnDot l = [l] := by
  intro l
  induction l with
  | nil => intro _; rfl
  | cons c r ih =>
      intro h
      have hc : c ≠ '.' := fun he => h (he ▸ List.mem_cons_self c r)
      have hr : '.' ∉ r := fun he => h (List.mem_cons_of_mem c he)
      unfold splitOnDot
      simp only [hc, if_false]
      rw [ih hr]

theorem splitOnDot_append :
    ∀ a b : List Char, splitOnDot (a ++ '.' :: b) = splitOnDot a ++ splitOnDot b := by
  intro a b
  induction a with
  | nil => simp [splitOnDot]
  | cons c r ih =>
      by_cases hc : c = '.'
      · subst hc
        show splitOnDot ('.' :: (r ++ '.' :: b)) = _
        unfold splitOnDot
        simp [ih]
        rw [splitOnDot.eq_def]
      · show splitOnDot (c :: (r ++ '.' :: b)) = _
        unfold splitOnDot
        simp only [hc, if_false]
        rw [ih]
        cases hsp : splitOnDot r with
        | nil => exact absurd hsp (splitOnDot_ne_nil r)
        | cons s ss =>
            simp
            rw [splitOnDot.eq_def]

theorem splitPath_single (s : String) (h : '.' ∉ s.data) :
    splitPath s = [s] := by
  unfold splitPath
  rw [splitOnDot_no_dot s.data h]
  rfl

theorem splitPath_append (a t : String) (h : '.' ∉ t.data) :
    splitPath (a ++ "." ++ t) = splitPath a ++ [t] := by
  unfold splitPath
  rw [String.data_append, String.data_append]
  have : ("." : String).data ++ t.data = '.' :: t.data := rfl
  rw [List.append_assoc, this, splitOnDot_append, List.map_append,
    splitOnDot_no_dot t.data h]
  rfl

theorem natRepr_no_dot (n : Nat) : '.' ∉ (natRepr n).data := by
  intro h
  have := natRepr_digits n '.' h
  simp at this

theorem seg_str_no_dot (sg : Seg) (h : segDotFree sg) : '.' ∉ sg.str.data := by
  cases sg with
  | okey s => exact h
  | aidx n => exact natRepr_no_dot n

theorem splitPath_pathStr :
    ∀ (segs : List Seg) (pre : String), (∀ sg ∈ segs, segDotFree sg) →
      splitPath (pathStr pre segs) = splitPath pre ++ segs.map Seg.str := by
  intro segs
  induction segs with
  | nil => intro pre _; simp [pathStr]
  | cons sg rest ih =>
      intro pre h
      unfold pathStr
      rw [ih _ (fun x hx => h x (List.mem_cons_of_mem sg hx)),
        splitPath_append pre sg.str
          (seg_str_no_dot sg (h sg (List.mem_cons_self sg rest)))]
      simp

theorem splitPath_segsStr (sg : Seg) (rest : List Seg)
    (hs : segDotFree sg) (h : ∀ x ∈ rest, segDotFree x) :
    splitPath (segsStr (sg :: rest)) = (sg :: rest).map Seg.str := by
  unfold segsStr
  rw [splitPath_pathStr rest sg.str h,
    splitPath_single sg.str (seg_str_no_dot sg hs)]
  rfl

/-! ## C1 — container operation lemmas -/

theorem lookupField_cons (a : String) (b : JsVal)
    (rest : List (String × JsVal)) (k : String) :
    lookupField ((a, b) :: rest) k =
      if a == k then some b else lookupField rest k := by
  unfold lookupField
  cases hp : a == k <;> simp [List.find?, hp, lookupField]

theorem setField_cons (a : String) (b : JsVal)
    (rest : List (String × JsVal)) (k : String) (x : JsVal) :
    setField ((a, b) :: rest) k x =
      if a == k then (k, x) :: rest else (a, b) :: setField rest k x := rfl

theorem lookupField_setField_self (fields : List (String × JsVal))
    (k : String) (x : JsVal) :
    lookupField (setField fields k x) k = some x := by
  induction fields with
  | nil => simp [setField, lookupField, List.find?]
  | cons p rest ih =>
      obtain ⟨a, b⟩ := p
      rw [setField_cons]
      cases hp : a == k with
      | true => simp [lookupField_cons]
      | false => simp [hp, lookupField_cons, ih]

theorem setField_setField (fields : List (String × JsVal)) (k : String)
    (x y : JsVal) :
    setField (setField fields k x) k y = setField fields k y := by
  induction fields with
  | nil => simp [setField]
  | cons p rest ih =>
      obtain ⟨a, b⟩ := p
      cases hp : a == k with
      | true =>
          have ha : a = k := eq_of_beq hp
          subst ha
          simp [setField_cons]
      | false =>
          rw [setField_cons, hp]
          simp only [Bool.false_eq_true, if_false]
          rw [setField_cons, hp]
          simp only [Bool.false_eq_true, if_false]
          rw [setField_cons, hp]
          simp [ih]

theorem setField_fresh_append (fields : List (String × JsVal)) (k : String)
    (x : JsVal) (h : lookupField fields k = none) :
    setField fields k x = fields ++ [(k, x)] := by
  induction fields with
  | nil => rfl
  | cons p rest ih =>
      obtain ⟨a, b⟩ := p
      rw [lookupField_cons] at h
      cases hp : a == k with
      | true => rw [hp] at h; simp at h
      | false =>
          rw [hp] at h
          simp only [Bool.false_eq_true, if_false] at h
          rw [setField_cons, hp]
          simp [ih h]

theorem setField_lookup_self (fields : List (String × JsVal)) (k : String)
    (c : JsVal) (h : lookupField fields k = some c) :
    setField fields k c = fields := by
  induction fields with
  | nil => simp [lookupField, List.find?] at h
  | cons p rest ih =>
      obtain ⟨a, b⟩ := p
      rw [lookupField_cons] at h
      rw [setField_cons]
      cases hp : a == k with
      | true =>
          rw [hp] at h
          simp only [if_true] at h ⊢
          obtain rfl : b = c := by simpa using h
          have : k = a := (eq_of_beq hp).symm
          simp [this]
      | false =>
          rw [hp] at h
          simp only [Bool.false_eq_true, if_false] at h ⊢
          rw [ih h]

theorem lookupField_append_none (fields : List (String × JsVal))
    (k k' : String) (x : JsVal) (hne : (k == k') = false)
    (h : lookupField fields k' = none) :
    lookupField (fields ++ [(k, x)]) k' = none := by
  induction fields with
  | nil => simp [lookupField_cons, hne, lookupField, List.find?]
  | cons p rest ih =>
      obtain ⟨a, b⟩ := p
      rw [lookupField_cons] at h
      rw [List.cons_append, lookupField_cons]
      cases hp : a == k' with
      | true => rw [hp] at h; simp at h
      | false =>
          rw [hp] at h
          simp only [Bool.false_eq_true, if_false] at h ⊢
          exact ih h

theorem getItem_cons_zero (x : Option JsVal) (rest : List (Option JsVal)) :
    getItem (x :: rest) 0 = x := by
  cases x <;> rfl

theorem getItem_cons_succ (x : Option JsVal) (rest : List (Option JsVal))
    (n : Nat) : getItem (x :: rest) (n + 1) = getItem rest n := rfl

theorem getItem_length_none (items : List (Option JsVal)) :
    getItem items items.length = none := by
  induction items with
  | nil => rfl
  | cons x rest ih => rw [List.length_cons, getItem_cons_succ]; exact ih

theorem setItem_length_append (items : List (Option JsVal)) (x : JsVal) :
    setItem items items.length x = items ++ [some x] := by
  induction items with
  | nil => rfl
  | cons y rest ih => rw [List.length_cons]; show y :: _ = _; rw [ih]; rfl

theorem getItem_setItem_self (i : Nat) :
    ∀ (items : List (Option JsVal)) (x : JsVal),
      getItem (setItem items i x) i = some x := by
  induction i with
  | zero =>
      intro items x
      cases items <;> simp [setItem, getItem_cons_zero]
  | succ n ih =>
      intro items x
      cases items with
      | nil => show getItem (none :: setItem [] n x) (n + 1) = _
               rw [getItem_cons_succ]; exact ih [] x
      | cons y rest => show getItem (y :: setItem rest n x) (n + 1) = _
                       rw [getItem_cons_succ]; exact ih rest x

theorem setItem_setItem (i : Nat) :
    ∀ (items : List (Option JsVal)) (x y : JsVal),
      setItem (setItem items i x) i y = setItem items i y := by
  induction i with
  | zero => intro items x y; cases items <;> rfl
  | succ n ih =>
      intro items x y
      cases items with
      | nil =>
          show none :: setItem (setItem [] n x) n y = _
          rw [ih [] x y]
          rfl
      | cons z rest =>
          show z :: setItem (setItem rest n x) n y = _
          rw [ih rest x y]
          rfl

/-! ## C1 — goodness extraction and chain bookkeeping -/

theorem goodKey_not_numeric (k : String) (h : goodKey k = true) :
    jsIsNumeric k = false := by
  simp only [goodKey, Bool.and_eq_true, Bool.not_eq_true'] at h
  exact h.2

theorem goodKey_no_dot (k : String) (h : goodKey k = true) : '.' ∉ k.data := by
  simp only [goodKey, Bool.and_eq_true, Bool.not_eq_true', List.all_eq_true,
    decide_eq_true_eq] at h
  intro hm
  exact (h.1.2 '.' hm) rfl

theorem goodKey_data_ne_nil (k : String) (h : goodKey k = true) :
    k.data ≠ [] := by
  intro hd
  simp only [goodKey, Bool.and_eq_true, Bool.not_eq_true'] at h
  have hk : k = "" := String.ext (hd.trans rfl)
  rw [hk] at h
  exact absurd h.1.1 (by decide)

theorem chainOK_append_okey :
    ∀ (l : List Seg) (k : String), chainOK l = true → goodKey k = true →
      chainOK (l ++ [Seg.okey k]) = true := by
  intro l
  induction l with
  | nil => intro k _ hk; simp [chainOK, hk]
  | cons sg r ih =>
      intro k h hk
      cases sg with
      | okey s =>
          simp only [chainOK, Bool.and_eq_true] at h
          simp only [List.cons_append, chainOK, Bool.and_eq_true]
          exact ⟨h.1, ih k h.2 hk⟩
      | aidx i =>
          cases r with
          | nil =>
              simp only [chainOK, Bool.and_eq_true] at h
              simp only [List.cons_append, List.nil_append, chainOK,
                Bool.and_eq_true]
              exact ⟨⟨h.1.1, rfl⟩, by simp [chainOK, hk]⟩
          | cons sg2 r2 =>
              cases sg2 with
              | aidx j => simp [chainOK] at h
              | okey s2 =>
                  simp only [chainOK, Bool.and_eq_true] at h
                  simp only [List.cons_append, chainOK, Bool.and_eq_true]
                  have hres := ih k
                    (by simp only [chainOK, Bool.and_eq_true]; exact h.2) hk
                  simp only [List.cons_append, chainOK, Bool.and_eq_true] at hres
                  exact ⟨⟨h.1.1, rfl⟩, hres⟩

theorem chainOK_append_aidx0 :
    ∀ (l : List Seg), chainOK l = true →
      (∀ j, l.getLast? ≠ some (Seg.aidx j)) →
      chainOK (l ++ [Seg.aidx 0]) = true := by
  intro l
  induction l with
  | nil => intro _ _; decide
  | cons sg r ih =>
      intro h hlast
      have hlast' : ∀ j, r.getLast? ≠ some (Seg.aidx j) := by
        intro j hj
        cases r with
        | nil => cases hj
        | cons a b =>
            exact hlast j (by rw [List.getLast?_cons_cons]; exact hj)
      cases sg with
      | okey s =>
          simp only [chainOK, Bool.and_eq_true] at h
          simp only [List.cons_append, chainOK, Bool.and_eq_true]
          exact ⟨h.1, ih h.2 hlast'⟩
      | aidx i =>
          cases r with
          | nil => exact absurd (by simp) (hlast i)
          | cons sg2 r2 =>
              cases sg2 with
              | aidx j => simp [chainOK] at h
              | okey s2 =>
                  simp only [chainOK, Bool.and_eq_true] at h
                  simp only [List.cons_append, chainOK, Bool.and_eq_true]
                  have hres := ih
                    (by simp only [chainOK, Bool.and_eq_true]; exact h.2) hlast'
                  simp only [List.cons_append, chainOK, Bool.and_eq_true] at hres
                  exact ⟨⟨h.1.1, rfl⟩, hres⟩

theorem freshPathOK_chainOK (slot : Seg) (chain : List Seg)
    (h : freshPathOK slot chain = true) : chainOK chain = true := by
  cases slot with
  | okey s => simp only [freshPathOK, Bool.and_eq_true] at h; exact h.1.2
  | aidx i => simp only [freshPathOK, Bool.and_eq_true] at h; exact h.1

theorem freshPathOK_snoc_okey (slot : Seg) (chain : List Seg) (k : String)
    (h : freshPathOK slot chain = true) (hk : goodKey k = true) :
    freshPathOK slot (chain ++ [Seg.okey k]) = true := by
  cases slot with
  | okey s =>
      simp only [freshPathOK, Bool.and_eq_true] at h
      simp only [freshPathOK, Bool.and_eq_true]
      refine ⟨⟨h.1.1, chainOK_append_okey chain k h.1.2 hk⟩, ?_⟩
      cases chain with
      | nil => rfl
      | cons sg2 r2 =>
          cases sg2 with
          | okey s2 => rfl
          | aidx i => exact h.2
  | aidx i =>
      simp only [freshPathOK, Bool.and_eq_true] at h
      simp only [freshPathOK, Bool.and_eq_true]
      refine ⟨chainOK_append_okey chain k h.1 hk, ?_⟩
      cases chain with
      | nil => rfl
      | cons sg2 r2 =>
          cases sg2 with
          | okey s2 => rfl
          | aidx j => exact h.2

theorem freshPathOK_snoc_aidx0 (slot : Seg) (chain : List Seg)
    (h : freshPathOK slot chain = true)
    (hlast : ∀ j, (slot :: chain).getLast? ≠ some (Seg.aidx j)) :
    freshPathOK slot (chain ++ [Seg.aidx 0]) = true := by
  have hlast' : ∀ j, chain.getLast? ≠ some (Seg.aidx j) := by
    intro j hj
    cases chain with
    | nil => cases hj
    | cons a b => exact hlast j (by rw [List.getLast?_cons_cons]; exact hj)
  cases slot with
  | okey s =>
      simp only [freshPathOK, Bool.and_eq_true] at h
      simp only [freshPathOK, Bool.and_eq_true]
      refine ⟨⟨h.1.1, chainOK_append_aidx0 chain h.1.2 hlast'⟩, ?_⟩
      cases chain with
      | nil => rfl
      | cons sg2 r2 =>
          cases sg2 with
          | okey s2 => rfl
          | aidx i => exact h.2
  | aidx i =>
      simp only [freshPathOK, Bool.and_eq_true] at h
      simp only [freshPathOK, Bool.and_eq_true]
      refine ⟨chainOK_append_aidx0 chain h.1 hlast', ?_⟩
      cases chain with
      | nil => exact absurd (by simp) (hlast i)
      | cons sg2 r2 =>
          cases sg2 with
          | okey s2 => rfl
          | aidx j => exact h.2

theorem freshPathOK_step (slot sg2 : Seg) (rest : List Seg)
    (h : freshPathOK slot (sg2 :: rest) = true) :
    freshPathOK sg2 rest = true := by
  have hchain : chainOK (sg2 :: rest) = true := freshPathOK_chainOK slot _ h
  cases sg2 with
  | okey s2 =>
      simp only [chainOK, Bool.and_eq_true] at hchain
      simp only [freshPathOK, Bool.and_eq_true]
      refine ⟨⟨hchain.1, hchain.2⟩, ?_⟩
      cases rest with
      | nil => rfl
      | cons sg3 r3 =>
          cases sg3 with
          | okey s3 => rfl
          | aidx i3 =>
              have h3 := hchain.2
              simp only [chainOK, Bool.and_eq_true] at h3
              exact h3.1.1
  | aidx i2 =>
      simp only [chainOK, Bool.and_eq_true] at hchain
      simp only [freshPathOK, Bool.and_eq_true]
      refine ⟨hchain.2, ?_⟩
      cases rest with
      | nil => rfl
      | cons sg3 r3 =>
          cases sg3 with
          | okey s3 => rfl
          | aidx i3 => exact hchain.1.2

theorem freshPathOK_head_aidx_zero (slot : Seg) (i : Nat) (rest : List Seg)
    (h : freshPathOK slot (Seg.aidx i :: rest) = true) : i = 0 := by
  cases slot with
  | okey s =>
      simp only [freshPathOK, Bool.and_eq_true] at h
      simpa using h.2
  | aidx j =>
      simp only [freshPathOK, Bool.and_eq_true] at h
      exact absurd h.2 (by simp)

/-! ## C1 — truthiness and path-string lemmas -/

theorem updAt_truthy (c : JsVal) (rest : List Seg) (f : JsVal → JsVal)
    (hc : jsTruthy c = true) (hf : ∀ x, jsTruthy (f x) = true) :
    jsTruthy (updAt c rest f) = true := by
  cases rest with
  | nil => cases c <;> exact hf _
  | cons sg r =>
      cases c with
      | vstr s => cases sg <;> exact hc
      | vobj fields =>
          cases sg with
          | okey s =>
              simp only [updAt]
              cases lookupField fields s <;> rfl
          | aidx i => exact hc
      | varr items props =>
          cases sg with
          | okey s => exact hc
          | aidx i =>
              simp only [updAt]
              cases getItem items i <;> rfl

theorem buildChain_truthy (chain : List Seg) (X : JsVal)
    (hx : jsTruthy X = true) : jsTruthy (buildChain chain X) = true := by
  cases chain with
  | nil => exact hx
  | cons sg r => cases sg <;> rfl

theorem slotPut_truthy (sg : Seg) (x p : JsVal) (hp : jsTruthy p = true) :
    jsTruthy (slotPut sg x p) = true := by
  cases sg <;> cases p <;> first | rfl | exact hp

theorem buildChain_snoc_okey (chain : List Seg) (k : String) (X : JsVal) :
    buildChain (chain ++ [Seg.okey k]) X =
      buildChain chain (JsVal.vobj [(k, X)]) := by
  induction chain with
  | nil => rfl
  | cons sg r ih => cases sg <;> simp [buildChain, ih]

theorem buildChain_snoc_aidx0 (chain : List Seg) (X : JsVal) :
    buildChain (chain ++ [Seg.aidx 0]) X =
      buildChain chain (JsVal.varr [some X] []) := by
  induction chain with
  | nil => rfl
  | cons sg r ih => cases sg <;> simp [buildChain, ih]

theorem pathStr_snoc : ∀ (segs : List Seg) (pre : String) (x : Seg),
    pathStr pre (segs ++ [x]) = pathStr pre segs ++ "." ++ x.str := by
  intro segs
  induction segs with
  | nil => intro pre x; rfl
  | cons sg r ih => intro pre x; exact ih (pre ++ "." ++ sg.str) x

theorem segsStr_snoc (sg : Seg) (rest : List Seg) (x : Seg) :
    segsStr ((sg :: rest) ++ [x]) = segsStr (sg :: rest) ++ "." ++ x.str := by
  simp only [List.cons_append, segsStr]
  exact pathStr_snoc rest sg.str x

theorem segsStr_append_snoc (l : List Seg) (x : Seg) (h : l ≠ []) :
    segsStr (l ++ [x]) = segsStr l ++ "." ++ x.str := by
  cases l with
  | nil => exact absurd rfl h
  | cons sg rest => exact segsStr_snoc sg rest x

theorem pathStr_data_ne_nil :
    ∀ (segs : List Seg) (pre : String), pre.data ≠ [] →
      (pathStr pre segs).data ≠ [] := by
  intro segs
  induction segs with
  | nil => intro pre h; exact h
  | cons sg r ih =>
      intro pre hpre
      refine ih (pre ++ "." ++ sg.str) ?_
      rw [String.data_append, String.data_append]
      intro hx
      exact hpre (List.append_eq_nil.mp (List.append_eq_nil.mp hx).1).1

theorem segsStr_ne_empty (sg : Seg) (rest : List Seg)
    (hs : sg.str.data ≠ []) : segsStr (sg :: rest) ≠ "" := by
  intro h
  have hne := pathStr_data_ne_nil rest sg.str hs
  rw [show pathStr sg.str rest = "" from h] at hne
  exact hne rfl

theorem joinKey_of_ne (pre k : String) (h : pre ≠ "") :
    joinKey pre k = pre ++ "." ++ k := by
  simp [joinKey, h]

theorem nav_dotfree (o : JsVal) (S : List Seg) (p : JsVal) (h : Nav o S p) :
    ∀ sg ∈ S, segDotFree sg := by
  induction h with
  | nil o => intro sg hsg; cases hsg
  | obj fields s c rest fin hk hlk htr hnav ih =>
      intro sg hsg
      cases hsg with
      | head => exact goodKey_no_dot s hk
      | tail _ hm => exact ih sg hm
  | arr items props i c rest fin hget htr hnav ih =>
      intro sg hsg
      cases hsg with
      | head => exact trivial
      | tail _ hm => exact ih sg hm

theorem nav_str_ne_nil (o : JsVal) (S : List Seg) (p : JsVal) (h : Nav o S p) :
    ∀ sg ∈ S, sg.str.data ≠ [] := by
  induction h with
  | nil o => intro sg hsg; cases hsg
  | obj fields s c rest fin hk hlk htr hnav ih =>
      intro sg hsg
      cases hsg with
      | head => exact goodKey_data_ne_nil s hk
      | tail _ hm => exact ih sg hm
  | arr items props i c rest fin hget htr hnav ih =>
      intro sg hsg
      cases hsg with
      | head => exact natRepr_ne_nil i
      | tail _ hm => exact ih sg hm

theorem chainOK_dotfree :
    ∀ (l : List Seg), chainOK l = true → ∀ sg ∈ l, segDotFree sg := by
  intro l
  induction l with
  | nil => intro _ sg hsg; cases hsg
  | cons a r ih =>
      intro h sg hsg
      cases a with
      | okey s =>
          simp only [chainOK, Bool.and_eq_true] at h
          cases hsg with
          | head => exact goodKey_no_dot s h.1
          | tail _ hm => exact ih h.2 sg hm
      | aidx i =>
          simp only [chainOK, Bool.and_eq_true] at h
          cases hsg with
          | head => exact trivial
          | tail _ hm => exact ih h.2 sg hm

theorem chainOK_str_ne_nil :
    ∀ (l : List Seg), chainOK l = true → ∀ sg ∈ l, sg.str.data ≠ [] := by
  intro l
  induction l with
  | nil => intro _ sg hsg; cases hsg
  | cons a r ih =>
      intro h sg hsg
      cases a with
      | okey s =>
          simp only [chainOK, Bool.and_eq_true] at h
          cases hsg with
          | head => exact goodKey_data_ne_nil s h.1
          | tail _ hm => exact ih h.2 sg hm
      | aidx i =>
          simp only [chainOK, Bool.and_eq_true] at h
          cases hsg with
          | head => exact natRepr_ne_nil i
          | tail _ hm => exact ih h.2 sg hm

theorem freshPathOK_slot_dotfree (slot : Seg) (chain : List Seg)
    (h : freshPathOK slot chain = true) : segDotFree slot := by
  cases slot with
  | okey s =>
      simp only [freshPathOK, Bool.and_eq_true] at h
      exact goodKey_no_dot s h.1.1
  | aidx i => exact trivial

theorem freshPathOK_slot_ne_nil (slot : Seg) (chain : List Seg)
    (h : freshPathOK slot chain = true) : slot.str.data ≠ [] := by
  cases slot with
  | okey s =>
      simp only [freshPathOK, Bool.and_eq_true] at h
      exact goodKey_data_ne_nil s h.1.1
  | aidx i => exact natRepr_ne_nil i

/-! ## C1 — navigation and replacement algebra -/

theorem updAt_nil (o : JsVal) (f : JsVal → JsVal) : updAt o [] f = f o := by
  cases o <;> rfl

theorem setItem_getItem_id :
    ∀ (items : List (Option JsVal)) (i : Nat) (c : JsVal),
      getItem items i = some c → setItem items i c = items := by
  intro items
  induction items with
  | nil =>
      intro i c h
      cases i <;> exact Option.noConfusion h
  | cons x rest ih =>
      intro i c h
      cases i with
      | zero =>
          rw [getItem_cons_zero] at h
          subst h
          rfl
      | succ n =>
          rw [getItem_cons_succ] at h
          show x :: setItem rest n c = x :: rest
          rw [ih n c h]

theorem nav_append : ∀ {o : JsVal} {S : List Seg} {q : JsVal}, Nav o S q →
    ∀ {F : List Seg} {X : JsVal}, Nav q F X → Nav o (S ++ F) X := by
  intro o S q h1
  induction h1 with
  | nil o => intro F X h2; exact h2
  | obj fields s c rest fin hk hlk htr hnav ih =>
      intro F X h2
      exact Nav.obj fields s c (rest ++ F) X hk hlk htr (ih h2)
  | arr items props i c rest fin hget htr hnav ih =>
      intro F X h2
      exact Nav.arr items props i c (rest ++ F) X hget htr (ih h2)

theorem updAt_nav_self (o : JsVal) (S : List Seg) (p : JsVal)
    (h : Nav o S p) : updAt o S (fun _ => p) = o := by
  induction h with
  | nil o => exact updAt_nil o _
  | obj fields s c rest fin hk hlk htr hnav ih =>
      simp only [updAt, hlk]
      rw [ih, setField_lookup_self fields s c hlk]
  | arr items props i c rest fin hget htr hnav ih =>
      simp only [updAt, hget]
      rw [ih, setItem_getItem_id items i c hget]

theorem nav_updAt_self (o : JsVal) (S : List Seg) (p : JsVal)
    (h : Nav o S p) :
    ∀ q : JsVal, jsTruthy q = true → Nav (updAt o S (fun _ => q)) S q := by
  induction h with
  | nil o =>
      intro q hq
      rw [updAt_nil]
      exact Nav.nil q
  | obj fields s c rest fin hk hlk htr hnav ih =>
      intro q hq
      simp only [updAt, hlk]
      exact Nav.obj _ s (updAt c rest (fun _ => q)) rest q hk
        (lookupField_setField_self _ _ _)
        (updAt_truthy c rest _ htr (fun _ => hq)) (ih q hq)
  | arr items props i c rest fin hget htr hnav ih =>
      intro q hq
      simp only [updAt, hget]
      exact Nav.arr _ props i (updAt c rest (fun _ => q)) rest q
        (getItem_setItem_self _ _ _)
        (updAt_truthy c rest _ htr (fun _ => hq)) (ih q hq)

theorem updAt_again (o : JsVal) (S : List Seg) (p : JsVal) (h : Nav o S p) :
    ∀ (q : JsVal) (g : JsVal → JsVal),
      updAt (updAt o S (fun _ => q)) S g = updAt o S (fun _ => g q) := by
  induction h with
  | nil o =>
      intro q g
      rw [updAt_nil, updAt_nil, updAt_nil]
  | obj fields s c rest fin hk hlk htr hnav ih =>
      intro q g
      simp only [updAt, hlk, lookupField_setField_self]
      rw [setField_setField, ih q g]
  | arr items props i c rest fin hget htr hnav ih =>
      intro q g
      simp only [updAt, hget, getItem_setItem_self]
      rw [setItem_setItem, ih q g]

theorem updAt_split : ∀ (S : List Seg) (F : List Seg) (o : JsVal)
    (f : JsVal → JsVal),
    updAt o (S ++ F) f = updAt o S (fun c => updAt c F f) := by
  intro S
  induction S with
  | nil => intro F o f; rw [List.nil_append, updAt_nil]
  | cons sg rest ih =>
      intro F o f
      cases sg with
      | okey s =>
          cases o with
          | vobj fields =>
              simp only [List.cons_append, updAt]
              cases lookupField fields s with
              | some c =>
                  show JsVal.vobj (setField fields s (updAt c (rest ++ F) f)) =
                    JsVal.vobj
                      (setField fields s (updAt c rest fun c => updAt c F f))
                  rw [ih]
              | none => rfl
          | vstr s0 => rfl
          | varr items props => rfl
      | aidx i =>
          cases o with
          | varr items props =>
              simp only [List.cons_append, updAt]
              cases getItem items i with
              | some c =>
                  show JsVal.varr (setItem items i (updAt c (rest ++ F) f))
                      props =
                    JsVal.varr
                      (setItem items i (updAt c rest fun c => updAt c F f))
                      props
                  rw [ih]
              | none => rfl
          | vstr _ => rfl
          | vobj _ => rfl

theorem nav_buildChain : ∀ (chain : List Seg) (X : JsVal),
    chainOK chain = true → jsTruthy X = true →
    Nav (buildChain chain X) chain X := by
  intro chain
  induction chain with
  | nil => intro X _ _; exact Nav.nil X
  | cons sg rest ih =>
      intro X hok hx
      cases sg with
      | okey s =>
          simp only [chainOK, Bool.and_eq_true] at hok
          refine Nav.obj [(s, buildChain rest X)] s (buildChain rest X)
            rest X hok.1 ?_ (buildChain_truthy rest X hx) (ih X hok.2 hx)
          rw [lookupField_cons]
          simp
      | aidx i =>
          simp only [chainOK, Bool.and_eq_true] at hok
          have hi : i = 0 := by simpa using hok.1.1
          subst hi
          exact Nav.arr [some (buildChain rest X)] [] 0 (buildChain rest X)
            rest X rfl (buildChain_truthy rest X hx) (ih X hok.2 hx)

theorem updAt_buildChain : ∀ (chain : List Seg) (X : JsVal)
    (g : JsVal → JsVal), chainOK chain = true →
    updAt (buildChain chain X) chain g = buildChain chain (g X) := by
  intro chain
  induction chain with
  | nil => intro X g _; rw [updAt_nil]; rfl
  | cons sg rest ih =>
      intro X g hok
      cases sg with
      | okey s =>
          simp only [chainOK, Bool.and_eq_true] at hok
          have hl : lookupField [(s, buildChain rest X)] s =
              some (buildChain rest X) := by
            rw [lookupField_cons]; simp
          simp only [buildChain, updAt, hl]
          rw [ih X g hok.2, setField_cons]
          simp
      | aidx i =>
          simp only [chainOK, Bool.and_eq_true] at hok
          have hi : i = 0 := by simpa using hok.1.1
          subst hi
          simp only [buildChain, updAt, getItem_setItem_self]
          rw [ih X g hok.2, setItem_setItem]

theorem nav_graft (parent : JsVal) (slot : Seg) (chain : List Seg)
    (X : JsVal) (hf : slotFresh parent slot)
    (hp : freshPathOK slot chain = true) (hx : jsTruthy X = true) :
    Nav (graft parent (slot :: chain) X) (slot :: chain) X := by
  cases slot with
  | okey s =>
      cases parent with
      | vobj fields =>
          simp only [freshPathOK, Bool.and_eq_true] at hp
          exact Nav.obj _ s (buildChain chain X) chain X hp.1.1
            (lookupField_setField_self _ _ _)
            (buildChain_truthy chain X hx) (nav_buildChain chain X hp.1.2 hx)
      | vstr s0 => exact hf.elim
      | varr _ _ => exact hf.elim
  | aidx i =>
      cases parent with
      | varr items props =>
          have hi : i = items.length := hf
          subst hi
          simp only [freshPathOK, Bool.and_eq_true] at hp
          exact Nav.arr _ props items.length (buildChain chain X) chain X
            (getItem_setItem_self _ _ _)
            (buildChain_truthy chain X hx) (nav_buildChain chain X hp.1 hx)
      | vobj _ => exact hf.elim
      | vstr _ => exact hf.elim

theorem updAt_graft (parent : JsVal) (slot : Seg) (chain : List Seg)
    (X : JsVal) (g : JsVal → JsVal) (hf : slotFresh parent slot)
    (hp : freshPathOK slot chain = true) :
    updAt (graft parent (slot :: chain) X) (slot :: chain) g =
      graft parent (slot :: chain) (g X) := by
  have hchain : chainOK chain = true := freshPathOK_chainOK slot chain hp
  cases slot with
  | okey s =>
      cases parent with
      | vobj fields =>
          simp only [graft, slotPut, updAt, lookupField_setField_self]
          rw [setField_setField, updAt_buildChain chain X g hchain]
      | vstr s0 => exact hf.elim
      | varr _ _ => exact hf.elim
  | aidx i =>
      cases parent with
      | varr items props =>
          have hi : i = items.length := hf
          subst hi
          simp only [graft, slotPut, updAt, getItem_setItem_self]
          rw [setItem_setItem, updAt_buildChain chain X g hchain]
      | vobj _ => exact hf.elim
      | vstr _ => exact hf.elim

/-! ## C1 — `setNestedValue` navigates existing paths and creates fresh
chains -/

theorem setNVgo_nav : ∀ {o : JsVal} {S : List Seg} {parent : JsVal},
    Nav o S parent →
    ∀ (tail : List String) (v : String) (out : JsVal), tail ≠ [] →
      setNVgo parent tail v = Except.ok out →
      setNVgo o (S.map Seg.str ++ tail) v =
        Except.ok (updAt o S (fun _ => out)) := by
  intro o S parent hnav
  induction hnav with
  | nil o =>
      intro tail v out htail h
      simp only [List.map_nil, List.nil_append, updAt_nil]
      exact h
  | obj fields s c rest fin hk hlk htr hnav ih =>
      intro tail v out htail h
      obtain ⟨nk, tl, hcons⟩ : ∃ nk tl,
          rest.map Seg.str ++ tail = nk :: tl := by
        cases hx : rest.map Seg.str ++ tail with
        | nil =>
            rcases List.append_eq_nil.mp hx with ⟨-, h2⟩
            exact absurd h2 htail
        | cons a b => exact ⟨a, b, rfl⟩
      have hnum : jsIsNumeric s = false := goodKey_not_numeric s hk
      have hinner := ih tail v out htail h
      rw [hcons] at hinner
      show setNVgo (JsVal.vobj fields) (s :: (rest.map Seg.str ++ tail)) v = _
      rw [hcons]
      simp only [setNVgo, hnum, Bool.false_eq_true, if_false, hlk, objChild,
        htr, if_true, hinner, Except.map, updAt]
  | arr items props i c rest fin hget htr hnav ih =>
      intro tail v out htail h
      obtain ⟨nk, tl, hcons⟩ : ∃ nk tl,
          rest.map Seg.str ++ tail = nk :: tl := by
        cases hx : rest.map Seg.str ++ tail with
        | nil =>
            rcases List.append_eq_nil.mp hx with ⟨-, h2⟩
            exact absurd h2 htail
        | cons a b => exact ⟨a, b, rfl⟩
      have hinner := ih tail v out htail h
      rw [hcons] at hinner
      show setNVgo (JsVal.varr items props)
        (natRepr i :: (rest.map Seg.str ++ tail)) v = _
      rw [hcons]
      simp only [setNVgo, jsIsNumeric_natRepr, if_true, arrKeyOf_natRepr,
        hget, freshChild, htr, hinner, Except.map, updAt]

theorem slotFresh_newContainer (sg2 : Seg)
    (hz : ∀ j, sg2 = Seg.aidx j → j = 0)
    (hgood : ∀ s2, sg2 = Seg.okey s2 → goodKey s2 = true) :
    slotFresh (newContainer sg2.str) sg2 := by
  cases sg2 with
  | okey s2 =>
      have hnum : jsIsNumeric s2 = false :=
        goodKey_not_numeric s2 (hgood s2 rfl)
      show slotFresh (newContainer s2) (Seg.okey s2)
      simp only [newContainer, hnum, Bool.false_eq_true, if_false]
      show lookupField [] s2 = none
      rfl
  | aidx i2 =>
      have hz2 : i2 = 0 := hz i2 rfl
      subst hz2
      show slotFresh (newContainer (natRepr 0)) (Seg.aidx 0)
      simp only [newContainer, jsIsNumeric_natRepr, if_true]
      show (0 : Nat) = List.length ([] : List (Option JsVal))
      rfl

theorem graft_newContainer (sg2 : Seg) (rest : List Seg) (X : JsVal)
    (hz : ∀ j, sg2 = Seg.aidx j → j = 0)
    (hgood : ∀ s2, sg2 = Seg.okey s2 → goodKey s2 = true) :
    graft (newContainer sg2.str) (sg2 :: rest) X =
      buildChain (sg2 :: rest) X := by
  cases sg2 with
  | okey s2 =>
      have hnum : jsIsNumeric s2 = false :=
        goodKey_not_numeric s2 (hgood s2 rfl)
      show graft (newContainer s2) _ _ = _
      simp only [newContainer, hnum, Bool.false_eq_true, if_false, graft,
        slotPut, buildChain]
      rfl
  | aidx i2 =>
      have hz2 : i2 = 0 := hz i2 rfl
      subst hz2
      show graft (newContainer (natRepr 0)) _ _ = _
      simp only [newContainer, jsIsNumeric_natRepr, if_true, graft, slotPut,
        buildChain]

theorem setNVgo_fresh_chain : ∀ (chain : List Seg) (slot : Seg)
    (parent : JsVal) (v : String), slotFresh parent slot →
    freshPathOK slot chain = true →
    setNVgo parent ((slot :: chain).map Seg.str) v =
      Except.ok (graft parent (slot :: chain) (JsVal.vstr v)) := by
  intro chain
  induction chain with
  | nil =>
      intro slot parent v hf hp
      cases slot with
      | okey s =>
          cases parent with
          | vobj fields => rfl
          | vstr _ => exact hf.elim
          | varr _ _ => exact hf.elim
      | aidx i =>
          cases parent with
          | varr items props =>
              have hi : i = items.length := hf
              subst hi
              show Except.ok (assignLast (JsVal.varr items props)
                (natRepr items.length) v) = _
              simp only [assignLast, canonicalIndex_natRepr]
              rfl
          | vobj _ => exact hf.elim
          | vstr _ => exact hf.elim
  | cons sg2 rest ih =>
      intro slot parent v hf hp
      have hstep : freshPathOK sg2 rest = true :=
        freshPathOK_step slot sg2 rest hp
      have hz : ∀ j, sg2 = Seg.aidx j → j = 0 := by
        intro j hj
        subst hj
        exact freshPathOK_head_aidx_zero slot j rest hp
      cases slot with
      | okey s =>
          cases parent with
          | vobj fields =>
              have hgood : ∀ s2, sg2 = Seg.okey s2 → goodKey s2 = true := by
                intro s2 hs2
                subst hs2
                have hc := freshPathOK_chainOK (Seg.okey s) _ hp
                simp only [chainOK, Bool.and_eq_true] at hc
                exact hc.1
              have hs : goodKey s = true := by
                simp only [freshPathOK, Bool.and_eq_true] at hp
                exact hp.1.1
              have hnum : jsIsNumeric s = false := goodKey_not_numeric s hs
              have hfl : lookupField fields s = none := hf
              have hrec := ih sg2 (newContainer sg2.str) v
                (slotFresh_newContainer sg2 hz hgood) hstep
              simp only [List.map_cons] at hrec
              show setNVgo (JsVal.vobj fields)
                (s :: Seg.str sg2 :: rest.map Seg.str) v = _
              simp only [setNVgo, hnum, Bool.false_eq_true, if_false, hfl,
                objChild, hrec, Except.map,
                graft_newContainer sg2 rest (JsVal.vstr v) hz hgood]
              simp only [graft, slotPut]
          | vstr _ => exact hf.elim
          | varr _ _ => exact hf.elim
      | aidx i =>
          cases parent with
          | varr items props =>
              have hi : i = items.length := hf
              subst hi
              cases sg2 with
              | aidx j =>
                  simp only [freshPathOK, Bool.and_eq_true] at hp
                  exact absurd hp.2 (by simp)
              | okey s2 =>
                  have hrec := ih (Seg.okey s2) (JsVal.vobj []) v rfl hstep
                  simp only [List.map_cons] at hrec
                  show setNVgo (JsVal.varr items props)
                    (natRepr items.length :: Seg.str (Seg.okey s2) ::
                      rest.map Seg.str) v = _
                  simp only [setNVgo, jsIsNumeric_natRepr, if_true,
                    arrKeyOf_natRepr, getItem_length_none, freshChild, hrec,
                    Except.map]
                  show Except.ok (JsVal.varr (setItem items items.length
                      (graft (JsVal.vobj []) (Seg.okey s2 :: rest)
                        (JsVal.vstr v))) props) = _
                  simp only [graft, slotPut, buildChain]
                  rfl
          | vobj _ => exact hf.elim
          | vstr _ => exact hf.elim

/-! ## C1 — record emission and fold bookkeeping -/

theorem storeFields_cons (k : String) (v : JsTree)
    (rest : List (String × JsTree)) (pre : String) :
    storeFields ((k, v) :: rest) pre =
      (valRecs v (joinKey pre k)).bind (fun part =>
        (storeFields rest pre).bind (fun more =>
          Except.ok (part ++ more))) := by
  cases v <;> rfl

theorem storeArr_cons (t : JsTree) (rest : List JsTree) (i : Nat)
    (elem : String) (ht : itemShapeOK t) :
    storeArr (t :: rest) i elem =
      (valRecs t (elem ++ "." ++ natRepr i)).bind (fun part =>
        (storeArr rest (i + 1) elem).bind (fun more =>
          Except.ok (part ++ more))) := by
  cases t with
  | node fs => rfl
  | arrNode its => exact ht.elim
  | leaf sc =>
      cases sc with
      | snull => exact ht.elim
      | sstr s => rfl
      | snum n => rfl
      | sbool b => rfl

theorem foldSet_nil (o : JsVal) : foldSet o [] = Except.ok o := rfl

theorem foldSet_single (o : JsVal) (e v : String) :
    foldSet o [(e, v)] = setNestedValue o e v := by
  simp only [foldSet, List.foldlM_cons, List.foldlM_nil]
  cases setNestedValue o e v <;> rfl

theorem foldSet_append (l1 : List (String × String)) :
    ∀ (o o1 : JsVal) (l2 : List (String × String)),
      foldSet o l1 = Except.ok o1 →
      foldSet o (l1 ++ l2) = foldSet o1 l2 := by
  induction l1 with
  | nil =>
      intro o o1 l2 h
      have h' : Except.ok o = Except.ok o1 := h
      injection h' with he
      subst he
      rfl
  | cons r l1' ih =>
      intro o o1 l2 h
      rw [List.cons_append]
      simp only [foldSet, List.foldlM_cons] at h ⊢
      cases hr : setNestedValue o r.1 r.2 with
      | error e =>
          rw [hr] at h
          simp [bind, Except.bind] at h
      | ok o' =>
          simp only [bind, Except.bind] at h ⊢
          rw [hr] at h
          exact ih o' o1 l2 h

theorem segsStr_ne_empty_of_all (l : List Seg) (hne : l ≠ [])
    (h : ∀ sg ∈ l, sg.str.data ≠ []) : segsStr l ≠ "" := by
  cases l with
  | nil => exact absurd rfl hne
  | cons sg rest => exact segsStr_ne_empty sg rest (h sg (List.mem_cons_self _ _))

theorem splitPath_segsStr_list (l : List Seg) (hne : l ≠ [])
    (h : ∀ x ∈ l, segDotFree x) :
    splitPath (segsStr l) = l.map Seg.str := by
  cases l with
  | nil => exact absurd rfl hne
  | cons sg rest =>
      exact splitPath_segsStr sg rest (h sg (List.mem_cons_self _ _))
        (fun x hx => h x (List.mem_cons_of_mem _ hx))

theorem path_dotfree (o : JsVal) (S : List Seg) (parent : JsVal)
    (slot : Seg) (chain : List Seg) (hnav : Nav o S parent)
    (hp : freshPathOK slot chain = true) :
    ∀ x ∈ S ++ slot :: chain, segDotFree x := by
  intro x hx
  rcases List.mem_append.mp hx with hx | hx
  · exact nav_dotfree o S parent hnav x hx
  · rcases List.mem_cons.mp hx with hx | hx
    · rw [hx]; exact freshPathOK_slot_dotfree slot chain hp
    · exact chainOK_dotfree chain (freshPathOK_chainOK slot chain hp) x hx

theorem path_str_ne_nil (o : JsVal) (S : List Seg) (parent : JsVal)
    (slot : Seg) (chain : List Seg) (hnav : Nav o S parent)
    (hp : freshPathOK slot chain = true) :
    ∀ x ∈ S ++ slot :: chain, x.str.data ≠ [] := by
  intro x hx
  rcases List.mem_append.mp hx with hx | hx
  · exact nav_str_ne_nil o S parent hnav x hx
  · rcases List.mem_cons.mp hx with hx | hx
    · rw [hx]; exact freshPathOK_slot_ne_nil slot chain hp
    · exact chainOK_str_ne_nil chain (freshPathOK_chainOK slot chain hp) x hx

theorem slotFresh_truthy (parent : JsVal) (slot : Seg)
    (hf : slotFresh parent slot) : jsTruthy parent = true := by
  cases parent with
  | vobj fields => rfl
  | varr items props => rfl
  | vstr s => cases slot <;> exact hf.elim

theorem distinct_head_beq_false (k : String) (ks : List String)
    (h : distinctKeysB (k :: ks) = true) :
    ∀ q ∈ ks, (k == q) = false := by
  simp only [distinctKeysB, Bool.and_eq_true, Bool.not_eq_true'] at h
  intro q hq
  cases hbeq : k == q with
  | false => rfl
  | true =>
      have hkq : k = q := eq_of_beq hbeq
      subst hkq
      have helem : List.elem k ks = true := List.elem_iff.mpr hq
      have hc : List.elem k ks = false := h.1
      cases helem.symm.trans hc

/-! ## C1 — planting a whole payload value under a fresh path

`plantVal` is the heart of the round-trip: folding the records that
`storeCmiData` emits for one good value over `setNestedValue` grafts
exactly the stringified value at the fresh path.  `plantFields` and
`plantItems` run the corresponding entry loops against an existing
container at the path. -/

mutual

theorem plantVal : ∀ (v : JsTree) (S : List Seg) (o parent : JsVal)
    (slot : Seg) (chain : List Seg), goodVal v = true →
    Nav o S parent → slotFresh parent slot →
    freshPathOK slot chain = true →
    (∀ its, v = JsTree.arrNode its →
      ∀ j, (slot :: chain).getLast? ≠ some (Seg.aidx j)) →
    ∃ recs, valRecs v (segsStr (S ++ slot :: chain)) = Except.ok recs ∧
      foldSet o recs = Except.ok (updAt o S (fun _ =>
        graft parent (slot :: chain) (treeToJs v)))
  | JsTree.leaf sc, S, o, parent, slot, chain, hgood, hnav, hfresh,
      hp, harr => by
      refine ⟨[(segsStr (S ++ slot :: chain), sc.jsString)], rfl, ?_⟩
      rw [foldSet_single]
      unfold setNestedValue
      rw [splitPath_segsStr_list (S ++ slot :: chain) (by simp)
          (path_dotfree o S parent slot chain hnav hp),
        List.map_append]
      exact setNVgo_nav hnav ((slot :: chain).map Seg.str) sc.jsString _
        (by simp)
        (setNVgo_fresh_chain chain slot parent sc.jsString hfresh hp)
  | JsTree.node [], S, o, parent, slot, chain, hgood, hnav, hfresh,
      hp, harr => by
      simp [goodVal] at hgood
  | JsTree.node ((k1, v1) :: fs'), S, o, parent, slot, chain, hgood,
      hnav, hfresh, hp, harr => by
      have hg := hgood
      simp only [goodVal, Bool.and_eq_true] at hg
      have hdist : distinctKeysB (((k1, v1) :: fs').map
          (fun p => p.1)) = true := hg.1.2
      have hgf := hg.2
      simp only [goodFields, Bool.and_eq_true] at hgf
      have hk1 : goodKey k1 = true := hgf.1.1
      have hv1 : goodVal v1 = true := hgf.1.2
      have hfs' : goodFields fs' = true := hgf.2
      have hALL := path_str_ne_nil o S parent slot chain hnav hp
      have helemne : segsStr (S ++ slot :: chain) ≠ "" :=
        segsStr_ne_empty_of_all _ (by simp) hALL
      have hlast1 : ∀ j, (slot :: (chain ++ [Seg.okey k1])).getLast? ≠
          some (Seg.aidx j) := by
        intro j hj
        rw [show slot :: (chain ++ [Seg.okey k1]) =
            (slot :: chain) ++ [Seg.okey k1] from rfl,
          List.getLast?_concat] at hj
        cases hj
      obtain ⟨part, hpart, hfold1⟩ :=
        plantVal v1 S o parent slot (chain ++ [Seg.okey k1]) hv1 hnav
          hfresh (freshPathOK_snoc_okey slot chain k1 hp hk1)
          (by intro its2 hits2 j hj; exact hlast1 j hj)
      have hpath1 : S ++ slot :: (chain ++ [Seg.okey k1]) =
          (S ++ slot :: chain) ++ [Seg.okey k1] := by simp
      rw [hpath1, segsStr_append_snoc _ _ (by simp)] at hpart
      simp only [Seg.str] at hpart
      have hgR : graft parent (slot :: (chain ++ [Seg.okey k1]))
          (treeToJs v1) = graft parent (slot :: chain)
            (JsVal.vobj [(k1, treeToJs v1)]) := by
        simp only [graft, buildChain_snoc_okey]
      rw [hgR] at hfold1
      have hnav1 : Nav (updAt o S (fun _ => graft parent (slot :: chain)
          (JsVal.vobj [(k1, treeToJs v1)])))
          (S ++ slot :: chain) (JsVal.vobj [(k1, treeToJs v1)]) := by
        refine nav_append (nav_updAt_self o S parent hnav _ ?_)
          (nav_graft parent slot chain _ hfresh hp rfl)
        exact slotPut_truthy slot _ _ (slotFresh_truthy parent slot hfresh)
      obtain ⟨more, hmore, hfold2⟩ :=
        plantFields fs' (S ++ slot :: chain)
          (updAt o S (fun _ => graft parent (slot :: chain)
            (JsVal.vobj [(k1, treeToJs v1)])))
          [(k1, treeToJs v1)] hfs'
          (by
            have hd := hdist
            simp only [List.map_cons, distinctKeysB,
              Bool.and_eq_true] at hd
            exact hd.2)
          hnav1
          (by
            intro p hp2
            rw [lookupField_cons]
            have hne : (k1 == p.1) = false :=
              distinct_head_beq_false k1 (fs'.map (fun q => q.1))
                (by exact hdist) p.1 (List.mem_map_of_mem _ hp2)
            rw [hne]
            simp [lookupField, List.find?])
          (by simp)
      refine ⟨part ++ more, ?_, ?_⟩
      · show storeFields ((k1, v1) :: fs')
          (segsStr (S ++ slot :: chain)) = _
        rw [storeFields_cons, joinKey_of_ne _ _ helemne, hpart, hmore]
        rfl
      · rw [foldSet_append part o _ more hfold1, hfold2,
          updAt_split S (slot :: chain),
          updAt_again o S parent hnav,
          updAt_graft parent slot chain _ _ hfresh hp]
        rfl
  | JsTree.arrNode [], S, o, parent, slot, chain, hgood, hnav,
      hfresh, hp, harr => by
      simp [goodVal] at hgood
  | JsTree.arrNode (t1 :: its'), S, o, parent, slot, chain, hgood,
      hnav, hfresh, hp, harr => by
      have hg := hgood
      simp only [goodVal, Bool.and_eq_true] at hg
      have hits : goodItems (t1 :: its') = true := hg.2
      have ht1good : goodVal t1 = true := by
        cases t1 with
        | node fs =>
            simp only [goodItems, Bool.and_eq_true] at hits
            exact hits.1
        | leaf sc => rfl
        | arrNode _ => simp [goodItems] at hits
      have ht1shape : itemShapeOK t1 := by
        cases t1 with
        | node fs => trivial
        | arrNode _ => simp [goodItems] at hits
        | leaf sc =>
            cases sc with
            | snull => simp [goodItems] at hits
            | sstr s => trivial
            | snum n => trivial
            | sbool b => trivial
      have hits' : goodItems its' = true := by
        cases t1 with
        | node fs =>
            simp only [goodItems, Bool.and_eq_true] at hits
            exact hits.2
        | arrNode _ => simp [goodItems] at hits
        | leaf sc =>
            cases sc with
            | snull => simp [goodItems] at hits
            | sstr s => simpa [goodItems] using hits
            | snum n => simpa [goodItems] using hits
            | sbool b => simpa [goodItems] using hits
      have hlastq := harr (t1 :: its') rfl
      obtain ⟨part, hpart, hfold1⟩ :=
        plantVal t1 S o parent slot (chain ++ [Seg.aidx 0]) ht1good hnav
          hfresh (freshPathOK_snoc_aidx0 slot chain hp hlastq)
          (by
            intro its2 hits2 j hj
            subst hits2
            exact ht1shape.elim)
      have hpath1 : S ++ slot :: (chain ++ [Seg.aidx 0]) =
          (S ++ slot :: chain) ++ [Seg.aidx 0] := by simp
      rw [hpath1, segsStr_append_snoc _ _ (by simp)] at hpart
      simp only [Seg.str] at hpart
      have hgR : graft parent (slot :: (chain ++ [Seg.aidx 0]))
          (treeToJs t1) = graft parent (slot :: chain)
            (JsVal.varr [some (treeToJs t1)] []) := by
        simp only [graft, buildChain_snoc_aidx0]
      rw [hgR] at hfold1
      have hnav1 : Nav (updAt o S (fun _ => graft parent (slot :: chain)
          (JsVal.varr [some (treeToJs t1)] [])))
          (S ++ slot :: chain) (JsVal.varr [some (treeToJs t1)] []) := by
        refine nav_append (nav_updAt_self o S parent hnav _ ?_)
          (nav_graft parent slot chain _ hfresh hp rfl)
        exact slotPut_truthy slot _ _ (slotFresh_truthy parent slot hfresh)
      obtain ⟨more, hmore, hfold2⟩ :=
        plantItems its' (0 + 1) (S ++ slot :: chain)
          (updAt o S (fun _ => graft parent (slot :: chain)
            (JsVal.varr [some (treeToJs t1)] [])))
          [some (treeToJs t1)] [] hits' hnav1 rfl (by simp)
      refine ⟨part ++ more, ?_, ?_⟩
      · show storeArr (t1 :: its') 0 (segsStr (S ++ slot :: chain)) = _
        rw [storeArr_cons t1 its' 0 _ ht1shape, hpart, hmore]
        rfl
      · rw [foldSet_append part o _ more hfold1, hfold2,
          updAt_split S (slot :: chain),
          updAt_again o S parent hnav,
          updAt_graft parent slot chain _ _ hfresh hp]
        rfl
termination_by v _ _ _ _ _ _ _ _ _ _ => sizeOf v
decreasing_by all_goals (simp; try omega)

theorem plantFields : ∀ (fs : List (String × JsTree)) (S : List Seg)
    (o : JsVal) (cur : List (String × JsVal)), goodFields fs = true →
    distinctKeysB (fs.map (fun p => p.1)) = true →
    Nav o S (JsVal.vobj cur) →
    (∀ p ∈ fs, lookupField cur p.1 = none) → S ≠ [] →
    ∃ recs, storeFields fs (segsStr S) = Except.ok recs ∧
      foldSet o recs = Except.ok (updAt o S (fun _ =>
        JsVal.vobj (cur ++ fieldsToJs fs)))
  | [], S, o, cur, hgood, hdist, hnav, hfree, hSne => by
      refine ⟨[], rfl, ?_⟩
      rw [foldSet_nil]
      simp only [fieldsToJs, List.append_nil]
      rw [updAt_nav_self o S _ hnav]
  | (k, v) :: fs', S, o, cur, hgood, hdist, hnav, hfree, hSne => by
      have hg := hgood
      simp only [goodFields, Bool.and_eq_true] at hg
      have hk : goodKey k = true := hg.1.1
      have hv : goodVal v = true := hg.1.2
      have hfs' : goodFields fs' = true := hg.2
      have hSstr : ∀ sg ∈ S, sg.str.data ≠ [] := nav_str_ne_nil o S _ hnav
      have hSne' : segsStr S ≠ "" := segsStr_ne_empty_of_all S hSne hSstr
      have hfreeK : lookupField cur k = none :=
        hfree (k, v) (List.mem_cons_self _ _)
      have hfp : freshPathOK (Seg.okey k) [] = true := by
        simp [freshPathOK, hk, chainOK]
      obtain ⟨part, hpart, hfold1⟩ :=
        plantVal v S o (JsVal.vobj cur) (Seg.okey k) [] hv hnav hfreeK hfp
          (by intro its2 hits2 j hj; simp at hj)
      rw [segsStr_append_snoc S _ hSne] at hpart
      simp only [Seg.str] at hpart
      have hgR : graft (JsVal.vobj cur) (Seg.okey k :: []) (treeToJs v) =
          JsVal.vobj (cur ++ [(k, treeToJs v)]) := by
        show JsVal.vobj (setField cur k (treeToJs v)) = _
        rw [setField_fresh_append cur k _ hfreeK]
      rw [hgR] at hfold1
      have hnav1 : Nav (updAt o S (fun _ =>
          JsVal.vobj (cur ++ [(k, treeToJs v)]))) S
          (JsVal.vobj (cur ++ [(k, treeToJs v)])) :=
        nav_updAt_self o S _ hnav _ rfl
      obtain ⟨more, hmore, hfold2⟩ :=
        plantFields fs' S
          (updAt o S (fun _ => JsVal.vobj (cur ++ [(k, treeToJs v)])))
          (cur ++ [(k, treeToJs v)]) hfs'
          (by
            have hd := hdist
            simp only [List.map_cons, distinctKeysB, Bool.and_eq_true] at hd
            exact hd.2)
          hnav1
          (by
            intro p hp2
            have hne : (k == p.1) = false :=
              distinct_head_beq_false k (fs'.map (fun q => q.1))
                (by exact hdist) p.1 (List.mem_map_of_mem _ hp2)
            exact lookupField_append_none cur k p.1 _ hne
              (hfree p (List.mem_cons_of_mem _ hp2)))
          hSne
      refine ⟨part ++ more, ?_, ?_⟩
      · rw [storeFields_cons, joinKey_of_ne _ _ hSne', hpart, hmore]
        rfl
      · rw [foldSet_append part o _ more hfold1, hfold2,
          updAt_again o S _ hnav]
        simp only [List.append_assoc]
        rfl
termination_by fs _ _ _ _ _ _ _ _ => sizeOf fs
decreasing_by all_goals (simp; try omega)

theorem plantItems : ∀ (its : List JsTree) (idx : Nat) (S : List Seg)
    (o : JsVal) (curItems : List (Option JsVal))
    (props : List (String × JsVal)), goodItems its = true →
    Nav o S (JsVal.varr curItems props) → curItems.length = idx →
    S ≠ [] →
    ∃ recs, storeArr its idx (segsStr S) = Except.ok recs ∧
      foldSet o recs = Except.ok (updAt o S (fun _ =>
        JsVal.varr (curItems ++ itemsToJs its) props))
  | [], idx, S, o, curItems, props, hgood, hnav, hlen, hSne => by
      refine ⟨[], rfl, ?_⟩
      rw [foldSet_nil]
      simp only [itemsToJs, List.append_nil]
      rw [updAt_nav_self o S _ hnav]
  | t1 :: its', idx, S, o, curItems, props, hgood, hnav, hlen,
      hSne => by
      have ht1good : goodVal t1 = true := by
        cases t1 with
        | node fs =>
            simp only [goodItems, Bool.and_eq_true] at hgood
            exact hgood.1
        | leaf sc => rfl
        | arrNode _ => simp [goodItems] at hgood
      have ht1shape : itemShapeOK t1 := by
        cases t1 with
        | node fs => trivial
        | arrNode _ => simp [goodItems] at hgood
        | leaf sc =>
            cases sc with
            | snull => simp [goodItems] at hgood
            | sstr s => trivial
            | snum n => trivial
            | sbool b => trivial
      have hits' : goodItems its' = true := by
        cases t1 with
        | node fs =>
            simp only [goodItems, Bool.and_eq_true] at hgood
            exact hgood.2
        | arrNode _ => simp [goodItems] at hgood
        | leaf sc =>
            cases sc with
            | snull => simp [goodItems] at hgood
            | sstr s => simpa [goodItems] using hgood
            | snum n => simpa [goodItems] using hgood
            | sbool b => simpa [goodItems] using hgood
      have hSstr : ∀ sg ∈ S, sg.str.data ≠ [] := nav_str_ne_nil o S _ hnav
      have hSne' : segsStr S ≠ "" := segsStr_ne_empty_of_all S hSne hSstr
      have hfresh1 : slotFresh (JsVal.varr curItems props) (Seg.aidx idx) :=
        hlen.symm
      have hfp : freshPathOK (Seg.aidx idx) [] = true := rfl
      obtain ⟨part, hpart, hfold1⟩ :=
        plantVal t1 S o (JsVal.varr curItems props) (Seg.aidx idx) [] ht1good
          hnav hfresh1 hfp
          (by
            intro its2 hits2 j hj
            subst hits2
            exact ht1shape.elim)
      rw [segsStr_append_snoc S _ hSne] at hpart
      simp only [Seg.str] at hpart
      have hgR : graft (JsVal.varr curItems props) (Seg.aidx idx :: [])
          (treeToJs t1) =
          JsVal.varr (curItems ++ [some (treeToJs t1)]) props := by
        show JsVal.varr (setItem curItems idx (treeToJs t1)) props = _
        rw [← hlen, setItem_length_append]
      rw [hgR] at hfold1
      have hnav1 : Nav (updAt o S (fun _ =>
          JsVal.varr (curItems ++ [some (treeToJs t1)]) props)) S
          (JsVal.varr (curItems ++ [some (treeToJs t1)]) props) :=
        nav_updAt_self o S _ hnav _ rfl
      obtain ⟨more, hmore, hfold2⟩ :=
        plantItems its' (idx + 1) S
          (updAt o S (fun _ =>
            JsVal.varr (curItems ++ [some (treeToJs t1)]) props))
          (curItems ++ [some (treeToJs t1)]) props hits' hnav1
          (by rw [List.length_append, hlen]; rfl)
          hSne
      refine ⟨part ++ more, ?_, ?_⟩
      · rw [storeArr_cons t1 its' idx _ ht1shape, hpart, hmore]
        rfl
      · rw [foldSet_append part o _ more hfold1, hfold2,
          updAt_again o S _ hnav]
        simp only [List.append_assoc]
        rfl
termination_by its _ _ _ _ _ _ _ _ _ => sizeOf its
decreasing_by all_goals (simp; try omega)

end

/-! ## C1 — the flatten/rebuild round-trip -/

/-- C1 (counterexample): the round-trip law fails for a tree with a
numeric object key.  `{a: {"0": "b"}}` flattens to the single record
`("cmi.a.0", "b")`, but rebuilding turns the `"0"` step into an array
index (`!isNaN("0")`), so `cmi.a` comes back as the array `["b"]`, not
the object `{"0": "b"}` — the rebuilt tree differs from the original
even after the scalar-to-string coercion. -/
theorem storeCmiData_numeric_key_not_roundtrip :
    storeCmiData (JsTree.node [("a", JsTree.node [("0",
        JsTree.leaf (Scalar.sstr "b"))])]) "cmi" =
      Except.ok [("cmi.a.0", "b")] ∧
    buildCmi [("cmi.a.0", "b")] =
      Except.ok (JsVal.vobj [("cmi", JsVal.vobj [("a",
        JsVal.varr [some (JsVal.vstr "b")] [])])]) ∧
    JsVal.vobj [("cmi", JsVal.vobj [("a",
        JsVal.varr [some (JsVal.vstr "b")] [])])] ≠
      JsVal.vobj [("cmi", treeToJs (JsTree.node [("a", JsTree.node [("0",
        JsTree.leaf (Scalar.sstr "b"))])]))] := by
  refine ⟨rfl, rfl, ?_⟩
  simp [treeToJs, fieldsToJs]

/-- C1 (amended): the round-trip law holds on the payloads that survive
both directions: an object-topped tree whose objects are nonempty with
distinct, nonempty, dot-free, non-numeric keys, and whose arrays are
nonempty with object or non-null scalar items and no directly nested
arrays (`goodVal`).  For such `t`, flattening under the `"cmi"` prefix
succeeds and folding `setNestedValue` over the records (the
`getCmiData` reconstruction, starting from `{}`) yields exactly
`{cmi: t}` with every leaf stringified (`treeToJs`). -/
theorem storeCmiData_roundtrip_good (t : JsTree)
    (fs : List (String × JsTree)) (ht : t = JsTree.node fs)
    (hgood : goodVal t = true) :
    ∃ recs, storeCmiData t "cmi" = Except.ok recs ∧
      buildCmi recs = Except.ok (JsVal.vobj [("cmi", treeToJs t)]) := by
  subst ht
  obtain ⟨recs, h1, h2⟩ :=
    plantVal (JsTree.node fs) [] (JsVal.vobj []) (JsVal.vobj [])
      (Seg.okey "cmi") [] hgood (Nav.nil _) rfl (by decide)
      (by intro its h; cases h)
  refine ⟨recs, h1, ?_⟩
  rw [show buildCmi recs = foldSet (JsVal.vobj []) recs from rfl, h2,
    updAt_nil]
  rfl

/-- C1 (witness): the amended round-trip at a concrete good payload
`{a: "1", b: {c: "true"}}`. -/
theorem storeCmiData_roundtrip_good_witness :
    ∃ recs, storeCmiData (JsTree.node [("a", JsTree.leaf (Scalar.sstr "1")),
        ("b", JsTree.node [("c", JsTree.leaf (Scalar.sbool true))])])
        "cmi" = Except.ok recs ∧
      buildCmi recs = Except.ok (JsVal.vobj [("cmi",
        treeToJs (JsTree.node [("a", JsTree.leaf (Scalar.sstr "1")),
          ("b", JsTree.node [("c", JsTree.leaf (Scalar.sbool true))])]))]) :=
  storeCmiData_roundtrip_good _ _ rfl (by decide)
